import Mathlib

/-!
Verification of the multi-source summit matching and merge engine
(`merge_landserf.py`) and the topo25 reference reconcilers
(`topo_match.py`, `topo_match_m.py`).

The Python sources are shallowly embedded below: machine floats become
exact rationals, QGIS features become structures, and the per-record
loops become folds over explicit state.  The spatial index
(`QgsSpatialIndex`, external library code) is modelled from the spec
contract in section 4.1.
-/

set_option maxHeartbeats 1600000

deriving instance DecidableEq for Except

namespace YoDem

/-!
Computable rational arithmetic.  The standard `Rat` field operations
are `@[irreducible]`, which blocks kernel evaluation of concrete
inputs, so the embedding uses the following wrappers; each is proved
equal to the corresponding field operation, and the symbolic proofs
below rewrite through these equations.
-/

/-- Kernel-computable addition on `ℚ`. -/
def qadd (a b : ℚ) : ℚ :=
  Rat.divInt (a.num * b.den + b.num * a.den) (a.den * b.den)

/-- Kernel-computable subtraction on `ℚ`. -/
def qsub (a b : ℚ) : ℚ :=
  Rat.divInt (a.num * b.den - b.num * a.den) (a.den * b.den)

/-- Kernel-computable multiplication on `ℚ`. -/
def qmul (a b : ℚ) : ℚ :=
  Rat.divInt (a.num * b.num) (a.den * b.den)

/-- Kernel-computable division on `ℚ`. -/
def qdiv (a b : ℚ) : ℚ :=
  Rat.divInt (a.num * b.den) (a.den * b.num)

/-- A planar 2-D point.  Coordinates are modelled as exact rationals. -/
structure Pt where
  x : ℚ
  y : ℚ
deriving DecidableEq, Repr

instance : Inhabited Pt := ⟨⟨0, 0⟩⟩

/-- Squared planar Euclidean distance between two points. -/
def sqDist (p q : Pt) : ℚ :=
  qadd (qmul (qsub p.x q.x) (qsub p.x q.x)) (qmul (qsub p.y q.y) (qsub p.y q.y))

/-- An entry of a spatial index: a feature id paired with its point.
Entries are kept in insertion order. -/
abbrev IdxEntry := ℕ × Pt

/-- Modelled from the spec: `QgsSpatialIndex.nearestNeighbor` is external
library code; spec section 4.1 gives its contract — `query(point, k,
maxDistance)` returns up to `k` ids whose points lie within
`maxDistance`, nearest first, ties broken by insertion order.  We keep
the entries in insertion order, filter by distance, stable-sort by
distance (so ties stay in insertion order) and take `k`. -/
def nearestNeighbor (entries : List IdxEntry) (p : Pt) (k : ℕ) (maxDist : ℚ) :
    List ℕ :=
  (((entries.filter (fun e => sqDist e.2 p ≤ qmul maxDist maxDist)).insertionSort
      (fun e1 e2 => sqDist e1.2 p ≤ sqDist e2.2 p)).take k).map Prod.fst

/-- One summit record collected from an input layer
(`merge_landserf.py` line 273: `(dem, Elevation, Col elevation,
geometry, summit point, col point)`; the full line geometry is only
used to build output geometry and is not modelled). -/
structure Summit where
  dem : String
  elev : ℤ
  colElev : ℤ
  spt : Pt
  cpt : Pt
deriving DecidableEq, Repr

instance : Inhabited Summit := ⟨⟨"", 0, 0, ⟨0, 0⟩, ⟨0, 0⟩⟩⟩

/-- The anchor-point spatial index contents (`sisummit`): one entry per
record, ids assigned in scan order. -/
def anchorEntries (summits : List Summit) : List IdxEntry :=
  (summits.enum).map (fun e => (e.1, e.2.spt))

/-- The secondary-point spatial index contents (`sicol`). -/
def colEntries (summits : List Summit) : List IdxEntry :=
  (summits.enum).map (fun e => (e.1, e.2.cpt))

/-- Indexing helper: record `i` of the batch. -/
def sGet (summits : List Summit) (i : ℕ) : Summit :=
  summits.getD i default

/-- Anchor-index query for record `i` (`s = sisummit.nearestNeighbor(
summits[i][4], 5, distance)`). -/
def anchorQuery (summits : List Summit) (dist : ℚ) (i : ℕ) : List ℕ :=
  nearestNeighbor (anchorEntries summits) (sGet summits i).spt 5 dist

/-- Secondary-index query for record `i` (`c = sicol.nearestNeighbor(
summits[i][5], 20, distance)`). -/
def colQuery (summits : List Summit) (dist : ℚ) (i : ℕ) : List ℕ :=
  nearestNeighbor (colEntries summits) (sGet summits i).cpt 20 dist

/-- Confirmed mutual matches of record `i`
(`m = set(x for x in s if x in c)`, kept as a list in `s` order). -/
def mutualMatches (summits : List Summit) (dist : ℚ) (i : ℕ) : List ℕ :=
  (anchorQuery summits dist i).filter (fun x => x ∈ colQuery summits dist i)

/-- Anchor-only ambiguous links of record `i`
(`smatch.append([x for x in s if x not in c])`). -/
def anchorOnly (summits : List Summit) (dist : ℚ) (i : ℕ) : List ℕ :=
  (anchorQuery summits dist i).filter (fun x => x ∉ colQuery summits dist i)

/-- Secondary-only ambiguous links of record `i`
(`cmatch.append([x for x in c if x not in s])`). -/
def secondaryOnly (summits : List Summit) (dist : ℚ) (i : ℕ) : List ℕ :=
  (colQuery summits dist i).filter (fun x => x ∉ anchorQuery summits dist i)

/-- `tuple(sorted(m))` for a Python set `m` held as a list with possible
duplicates: deduplicate, then sort ascending. -/
def sortDedup (l : List ℕ) : List ℕ :=
  l.dedup.insertionSort (· ≤ ·)

/-- One iteration of the chaining loop of `merge_landserf.py` (lines
284–289) for record `i`: take the mutual match set `m`, fold in the
existing groups of already-grouped members
(`m |= set(item for x in m if x in dmatch for item in dmatch[x])`),
and remap every member of the enlarged set to the sorted tuple
(`for x in m: dmatch[x] = tuple(sorted(m))`).  The dictionary `dmatch`
is modelled as a function to lists, `[]` meaning "key absent". -/
def mergeStep (M : ℕ → List ℕ) (d : ℕ → List ℕ) (i : ℕ) : ℕ → List ℕ :=
  let grp := sortDedup (M i ++ ((M i).map d).flatten)
  fun j => if j ∈ grp then grp else d j

/-- The grouping state after processing the records listed in `ord`
(the code processes `ord = range(len(summits))`; the processing order
is kept explicit so that order-insensitivity can be stated). -/
def buildGroups (M : ℕ → List ℕ) (ord : List ℕ) : ℕ → List ℕ :=
  ord.foldl (mergeStep M) (fun _ => [])

/-- `dm = set(dmatch.values())`: the distinct groups, listed in first
occurrence order over record indices `0..n-1`.  (CPython iterates a
`set` in hash-table order; every claim below is insensitive to the
enumeration order of the distinct groups, so first-occurrence order is
used as the deterministic model of the provisional construction
order.) -/
def dmList (M : ℕ → List ℕ) (n : ℕ) : List (List ℕ) :=
  (((List.range n).map (buildGroups M (List.range n))).filter
    (fun g => !g.isEmpty)).dedup

/-- The match-set function the merge engine feeds into the chaining
loop: `M i` is the confirmed mutual match set of record `i`. -/
def pipeMatch (summits : List Summit) (dist : ℚ) : ℕ → List ℕ :=
  mutualMatches summits dist

/-- One provisional canonical entity, as built in the `for m in dm`
loop (`merge_landserf.py` lines 298–322): aggregate prominence,
per-source elevation pairs, and the raw-record-index ambiguous link
lists `ss` (joined into the provisional "Merge" field) and `cc`
(provisional "Cross"). -/
structure MFeature where
  prom : ℚ
  perSrc : List (String × ℤ × ℤ)
  mergeRaw : List ℕ
  crossRaw : List ℕ
deriving DecidableEq, Repr

/-- `e`: the sum of the member elevations of a group (`e += summits[i][1]`). -/
def groupElevSum (summits : List Summit) (g : List ℕ) : ℤ :=
  (g.map (fun i => (sGet summits i).elev)).sum

/-- `c`: the sum of the member col elevations (`c += summits[i][2]`). -/
def groupColSum (summits : List Summit) (g : List ℕ) : ℤ :=
  (g.map (fun i => (sGet summits i).colElev)).sum

/-- The aggregate prominence `f['Prominence'] = (e - c) / len(m)`:
integer sums, one division.  The Python float division is modelled as
exact rational division. -/
def groupProm (summits : List Summit) (g : List ℕ) : ℚ :=
  qdiv ((groupElevSum summits g - groupColSum summits g : ℤ) : ℚ) ((g.length : ℕ) : ℚ)

/-- Build the provisional feature of one group (lines 298–322).  The
raw `Merge`/`Cross` contents extend `smatch[i]`/`cmatch[i]` over the
members `i` in tuple order. -/
def buildFeature (summits : List Summit) (dist : ℚ) (g : List ℕ) : MFeature :=
  { prom := groupProm summits g
    perSrc := g.map (fun i =>
      ((sGet summits i).dem, (sGet summits i).elev, (sGet summits i).colElev))
    mergeRaw := g.flatMap (anchorOnly summits dist)
    crossRaw := g.flatMap (secondaryOnly summits dist) }

/-- The provisional feature list (`features`), one per distinct group,
in provisional construction order. -/
def provFeatures (summits : List Summit) (dist : ℚ) : List MFeature :=
  (dmList (pipeMatch summits dist) summits.length).map (buildFeature summits dist)

/-- `fmap`: raw record index to the provisional index of its feature
(`fmap[i] = len(features)` as each group is emitted).  `none` models a
record index absent from `fmap` (on which the Python code would raise
`KeyError` during link rewriting). -/
def fmap (summits : List Summit) (dist : ℚ) (i : ℕ) : Option ℕ :=
  (dmList (pipeMatch summits dist) summits.length).findIdx? (fun g => i ∈ g)

/-- The sort relation of line 324: descending `Prominence`
(`sorted(..., key=..., reverse=True)`; CPython sorts are stable, and
`reverse=True` does not reorder equal keys). -/
def promGE (a b : ℕ × MFeature) : Prop := b.2.prom ≤ a.2.prom

instance : DecidableRel promGE := fun a b =>
  inferInstanceAs (Decidable (b.2.prom ≤ a.2.prom))

/-- Line 324: `sorted(enumerate(features), key=..., reverse=True)` —
the provisional features paired with their provisional indices, sorted
stably by descending prominence. -/
def rankedPairs (fs : List MFeature) : List (ℕ × MFeature) :=
  fs.enum.insertionSort promGE

/-- The rank-to-provisional-index permutation (the first `index` of
line 324). -/
def ranks (fs : List MFeature) : List ℕ :=
  (rankedPairs fs).map Prod.fst

/-- The ascending-second-component relation used by line 325. -/
def sndLE (a b : ℕ × ℕ) : Prop := a.2 ≤ b.2

instance : DecidableRel sndLE := fun a b =>
  inferInstanceAs (Decidable (a.2 ≤ b.2))

/-- Line 325: `index = [x[0] for x in sorted(enumerate(index),
key=lambda s: s[1])]` — the inverse permutation, mapping a provisional
index to its final rank. -/
def invIndex (fs : List MFeature) : List ℕ :=
  ((ranks fs).enum.insertionSort sndLE).map Prod.fst

/-- `f'S{i+1:04}'`: the fixed-width identifier token of 1-based rank
`n` — the letter S followed by `n` zero-padded to width 4. -/
def fmtID (n : ℕ) : String :=
  "S" ++ String.mk (List.replicate (4 - (toString n).length) '0') ++ toString n

/-- Rewriting of one raw link list (lines 330–335): map each raw
record index through `fmap` to its provisional feature index,
deduplicate (`set(...)`), and render each via the inverse permutation
as a final identifier token.  CPython iterates the intermediate `set`
in unspecified order; first-occurrence order stands in for it, and no
verified property depends on the order of tokens within a field.  A
raw index missing from `fmap` would raise `KeyError` in Python; here
it is dropped, and the relevant theorems establish or assume totality. -/
def rewriteTokens (fm : ℕ → Option ℕ) (inv : List ℕ) (raw : List ℕ) :
    List String :=
  ((raw.filterMap fm).dedup).map (fun p => fmtID (inv.getD p 0 + 1))

/-- One emitted feature: `fid` and `ID` from the post-sort rank,
`Merge`/`Cross` as rewritten token lists (the code joins them with a
space into one string field). -/
structure OutFeature where
  fid : ℕ
  id : String
  prom : ℚ
  perSrc : List (String × ℤ × ℤ)
  merge : List String
  cross : List String
deriving DecidableEq, Repr

/-- The final output sequence of the merge engine (lines 324–337):
rank-sorted features, identifiers and rewritten links assigned from
the post-sort rank. -/
def mergeOutput (summits : List Summit) (dist : ℚ) : List OutFeature :=
  let fs := provFeatures summits dist
  let inv := invIndex fs
  let fm := fmap summits dist
  ((rankedPairs fs).enum).map (fun ri =>
    { fid := ri.1
      id := fmtID (ri.1 + 1)
      prom := ri.2.2.prom
      perSrc := ri.2.2.perSrc
      merge := rewriteTokens fm inv ri.2.2.mergeRaw
      cross := rewriteTokens fm inv ri.2.2.crossRaw })

/-!  Layer-configuration validation (lines 190–216). -/

/-- The recognized DEM source tags, in the key order of `layerList`
(also the alternation order of the regex of line 209). -/
def demTags : List String := ["SRTM", "ASTER", "ALOS", "TDX", "GLO30"]

/-- Scan the character positions of an (uppercased) layer name left to
right; at each position try the alternatives in pattern order.  This is
`re.search('SRTM|ASTER|ALOS|TDX|GLO30', name, re.I)`: the leftmost
match wins, alternation order breaking ties at the same position. -/
def findTagFrom : List Char → Option String
  | [] => none
  | c :: rest =>
    match demTags.find? (fun t => t.data.isPrefixOf (c :: rest)) with
    | some t => some t
    | none => findTagFrom rest

/-- ASCII uppercase of one character (the tag alphabet is plain
ASCII, so `re.I` needs no more). -/
def upChar (c : Char) : Char :=
  if c.isLower then Char.ofNat (c.toNat - 32) else c

/-- ASCII uppercase of a string. -/
def upperStr (s : String) : String := String.mk (s.data.map upChar)

/-- `m.group(0).upper()` of the case-insensitive search, or `none` when
the layer name infers no known DEM type. -/
def inferTag (nm : String) : Option String :=
  findTagFrom (upperStr nm).data

/-- An input layer: its name and its line features (elevation, col
elevation, and the first/last vertices of the geometry; `none` models
a feature without geometry, which the scan skips). -/
structure RawFeat where
  elev : ℤ
  colElev : ℤ
  geom : Option (Pt × Pt)
deriving DecidableEq, Repr

structure Layer where
  lname : String
  feats : List RawFeat
deriving DecidableEq, Repr

/-- The fatal configuration errors of lines 210–215
(`QgsProcessingException`; on a mixed-case duplicate the message
construction of line 215 itself raises `KeyError`, which equally
aborts the run before any output exists). -/
inductive MergeError where
  | unknownDem (layerName : String)
  | duplicateDem (layerName : String)
deriving DecidableEq, Repr

/-- The validation loop of lines 199–216: infer each layer tag, abort
on an unknown or already-assigned tag, otherwise record the
assignment. -/
def assignLayers : List Layer → List (String × Layer) →
    Except MergeError (List (String × Layer))
  | [], acc => .ok acc
  | ly :: rest, acc =>
    match inferTag ly.lname with
    | none => .error (.unknownDem ly.lname)
    | some t =>
      if ((acc.find? (fun p => p.1 = t)).isSome : Bool) then
        .error (.duplicateDem ly.lname)
      else
        assignLayers rest (acc ++ [(t, ly)])

def processLayers (layers : List Layer) :
    Except MergeError (List (String × Layer)) :=
  assignLayers layers []

/-- The record-collection loop of lines 249–275: iterate the assigned
layers in the fixed `layerList` key order, skipping features without
geometry. -/
def collectSummits (asg : List (String × Layer)) : List Summit :=
  demTags.flatMap (fun t =>
    match asg.find? (fun p => p.1 = t) with
    | some p => p.2.feats.filterMap (fun f =>
        f.geom.map (fun g => ⟨t, f.elev, f.colElev, g.1, g.2⟩))
    | none => [])

/-- The whole `processAlgorithm` run: configuration validation, then
the matching, grouping, aggregation and ranking pipeline.  A
configuration error aborts before any feature is produced. -/
def mergeRun (layers : List Layer) (dist : ℚ) :
    Except MergeError (List OutFeature) :=
  (processLayers layers).map (fun asg => mergeOutput (collectSummits asg) dist)

/-!
The topo25 reference reconcilers.  QGIS attribute values can be NULL:
an attribute is modelled as an `Option`, `none` standing for NULL.
Python truthiness (`if not f['X']`) treats NULL, `0` and the empty
string alike as false; the two `truthy` helpers reproduce that.
-/

/-- Python truthiness of a string attribute. -/
def truthyS (v : Option String) : Bool := (v.getD "") ≠ ""

/-- Python truthiness of an integer attribute. -/
def truthyI (v : Option ℤ) : Bool := (v.getD 0) ≠ 0

/-- Whether `pat` occurs as a contiguous sublist of the second list —
the Python `pat in s` test on strings. -/
def subListAt : List Char → List Char → Bool
  | pat, [] => pat.isEmpty
  | pat, c :: rest => pat.isPrefixOf (c :: rest) || subListAt pat rest

/-- Python `pat in s` for strings. -/
def hasSubstr (pat s : String) : Bool := subListAt pat.data s.data

/-- Python `str.isdecimal`, restricted to ASCII digits (the reference
data holds plain ASCII numerals). -/
def isDecimal (s : String) : Bool := !s.data.isEmpty && s.data.all Char.isDigit

/-- `int(s)` for a decimal string: fold the digits left to right. -/
def decVal (s : String) : ℤ :=
  ((s.data.foldl (fun n c => n * 10 + (c.toNat - 48)) 0 : ℕ) : ℤ)

/-- Python string comparison `a < b`: lexicographic by code point. -/
def strLtb : List Char → List Char → Bool
  | [], [] => false
  | [], _ :: _ => true
  | _ :: _, [] => false
  | a :: as, b :: bs => if a = b then strLtb as bs else decide (a < b)

/-- Python string comparison `a <= b`, i.e. `not (b < a)`. -/
def pyStrLE (a b : String) : Bool := !strLtb b.data a.data

/-- An input feature of either reconciler (the merged summit layer
schema).  The two geometry vertices are carried for the spatial mode;
the `g.moveVertex` geometry edits of the reconcilers are not modelled
(no verified property concerns geometry). -/
structure TFeature where
  fid : ℤ
  id : Option String
  name : Option String
  elevation : Option ℤ
  colElevation : Option ℤ
  reference : Option String
  prominence : Option ℤ
  notes : Option String
  spt : Pt
  cpt : Pt
deriving DecidableEq, Repr

instance : Inhabited TFeature :=
  ⟨⟨0, none, none, none, none, none, none, none, ⟨0, 0⟩, ⟨0, 0⟩⟩⟩

/-- A reference-layer feature (the topo25 schema): action marker,
cross-reference id, name, override strings, `Match` key (key mode) and
the two geometry endpoints (`none` = no geometry). -/
structure TRef where
  matchKey : Option String
  action : String
  ref : Option String
  name : Option String
  checkEle : Option String
  checkCol : Option String
  geom : Option (Pt × Pt)
deriving DecidableEq, Repr

instance : Inhabited TRef := ⟨⟨none, "", none, none, none, none, none⟩⟩

/-- Shared epilogue `if f['Elevation'] and f['Col elevation']:
f['Prominence'] = f['Elevation'] - f['Col elevation']`. -/
def promUpdate (f : TFeature) : TFeature :=
  if truthyI f.elevation && truthyI f.colElevation then
    { f with prominence := some (f.elevation.getD 0 - f.colElevation.getD 0) }
  else f

/-!  Key mode: `topo_match_m.py`. -/

/-- `refs = dict((r['Match'], r) for r in reference.getFeatures() if
r['Match'])`: keys are the truthy `Match` values; a duplicate key keeps
the last entry. -/
def lookupRef (refs : List TRef) (k : Option String) : Option TRef :=
  ((refs.filter (fun r => truthyS r.matchKey)).reverse).find?
    (fun r => r.matchKey == k)

/-- The `if not f['Elevation']:` block shared verbatim by both
reconcilers: when the elevation is absent (falsy) and the reference
carries a truthy override string, a decimal override is parsed and
applied, a non-decimal one appended to the running notes list. -/
def elePair (rf : TRef) (f0 : TFeature) (notes : List String) :
    Option ℤ × List String :=
  if !truthyI f0.elevation then
    if truthyS rf.checkEle then
      let s := rf.checkEle.getD ""
      if isDecimal s then (some (decVal s), notes)
      else (f0.elevation, notes ++ ["ele:" ++ s])
    else (f0.elevation, notes)
  else (f0.elevation, notes)

/-- The `if not f['Col elevation']:` block shared verbatim by both
reconcilers. -/
def colPair (rf : TRef) (f0 : TFeature) (notes : List String) :
    Option ℤ × List String :=
  if !truthyI f0.colElevation then
    if truthyS rf.checkCol then
      let s := rf.checkCol.getD ""
      if isDecimal s then (some (decVal s), notes)
      else (f0.colElevation, notes ++ ["col:" ++ s])
    else (f0.colElevation, notes)
  else (f0.colElevation, notes)

/-- The initial notes list of the key-mode matched branch
(`topo_match_m.py` lines 66–70). -/
def keyNotes0 (rf : TRef) : List String :=
  if hasSubstr "move" rf.action then []
  else if rf.action = "ok" ∨ rf.action = "move" then [] else [rf.action]

/-- The matched branch of the key-mode loop (`topo_match_m.py` lines
62–92) for one source feature: reference propagation unless the action
marker contains "move", fill-if-absent of Name / Elevation /
Col elevation, numeric overrides applied and non-numeric overrides
noted.  Returned alongside the updated feature is the `notes` list the
branch built; the same list, when non-empty, is joined into the Notes
field of the feature. -/
def keyApply (rf : TRef) (f0 : TFeature) : TFeature × List String :=
  let reference :=
    if hasSubstr "move" rf.action then f0.reference else rf.ref
  let nm := if !truthyS f0.name then rf.name else f0.name
  let eP := elePair rf f0 (keyNotes0 rf)
  let cP := colPair rf f0 eP.2
  let f1 : TFeature :=
    { f0 with
      reference := reference
      name := nm
      elevation := eP.1
      colElevation := cP.1 }
  (if cP.2 ≠ [] then
    { f1 with notes := some (String.intercalate "; " cP.2) }
  else f1, cP.2)

/-- The body of the key-mode loop (`topo_match_m.py` lines 61–95) for
one source feature: the matched branch when the `Match` lookup
succeeds, then the prominence update. -/
def keyStep (refs : List TRef) (f0 : TFeature) : TFeature :=
  promUpdate <|
    match lookupRef refs f0.id with
    | none => f0
    | some rf => (keyApply rf f0).1

/-- The sort key of `topo_match_m.py` line 99, as a boolean `≤` on the
Python key tuples `(0, Reference)` / `(1, -Prominence)`: records with a
truthy Reference first, compared by Reference; the rest compared by
descending Prominence.  A NULL prominence (on which Python would raise
a TypeError) is compared as `0`; the key-mode ordering theorem assumes
every compared record carries a prominence. -/
def keyLEb (a b : TFeature) : Bool :=
  match truthyS a.reference, truthyS b.reference with
  | true, true => pyStrLE (a.reference.getD "") (b.reference.getD "")
  | true, false => true
  | false, true => false
  | false, false => decide (b.prominence.getD 0 ≤ a.prominence.getD 0)

def keyLE (a b : TFeature) : Prop := keyLEb a b = true

instance : DecidableRel keyLE := fun a b =>
  inferInstanceAs (Decidable (keyLEb a b = true))

/-- The whole key-mode run (`topo_match_m.py` lines 55–105): process
every source feature, sort by the Python key (CPython sorts are
stable), and reassign `fid` to the zero-based output position. -/
def topoMatchM (refs : List TRef) (src : List TFeature) : List TFeature :=
  let fs := (src.map (keyStep refs)).insertionSort keyLE
  fs.enum.map (fun p => { p.2 with fid := (p.1 : ℤ) })

/-!  Spatial mode: `topo_match.py`. -/

/-- `ref_list` (lines 64–84): reference features with geometry and not
marked for delete, paired with their two indexed points, ids in scan
order. -/
def spatialRefs (refs : List TRef) : List (TRef × Pt × Pt) :=
  refs.filterMap (fun r =>
    match r.geom with
    | none => none
    | some g => if r.action = "delete" then none else some (r, g.1, g.2))

/-- The reference summit-point index (`summits`). -/
def refSummitEntries (refs : List TRef) : List IdxEntry :=
  (spatialRefs refs).enum.map (fun e => (e.1, e.2.2.1))

/-- The reference col-point index (`cols`). -/
def refColEntries (refs : List TRef) : List IdxEntry :=
  (spatialRefs refs).enum.map (fun e => (e.1, e.2.2.2))

/-- The hardcoded anchor tolerance `0.005` of line 95. -/
def tolSummit : ℚ := Rat.divInt 1 200

/-- The hardcoded col tolerance `0.01` of line 98. -/
def tolCol : ℚ := Rat.divInt 1 100

/-- The initial notes list of the spatial-mode matched branch
(`topo_match.py` lines 103–108): a "switch" action clears the notes;
otherwise a non-"ok" action is itself recorded. -/
def spatialNotes0 (rf : TRef) : List String :=
  if hasSubstr "switch" rf.action then []
  else if rf.action = "ok" then [] else [rf.action]

/-- The mutable state of the spatial-mode loop.  `notes` is the Python
local variable of the same name: `none` means it has never been
assigned in the enclosing function, `some ns` holds whatever the most
recent assignment left there — the variable is NOT reset between
records. -/
structure SpState where
  notes : Option (List String)
  matched : List ℕ
  candidate : List (ℕ × Option String)
  out : List TFeature
deriving DecidableEq, Repr

/-- One iteration of the spatial-mode loop (`topo_match.py` lines
89–135).  On the path where the anchor query hits reference `i` but
`i` is not the col-query result, the code runs `candidate[i] = f['ID']`
and then evaluates `if notes:` — reading `notes` without assigning it
on that path: an `UnboundLocalError` if no earlier record assigned it
(modelled as `Except.error`), stale notes from an earlier record
otherwise. -/
def spatialStep (refs : List TRef) (st : SpState) (f0 : TFeature) :
    Except String SpState :=
  match nearestNeighbor (refSummitEntries refs) f0.spt 1 tolSummit with
  | [] => .ok { st with out := st.out ++ [f0] }
  | i :: _ =>
    let j := nearestNeighbor (refColEntries refs) f0.cpt 1 tolCol
    if i ∈ j then
      let rf := ((spatialRefs refs).getD i default).1
      let sw := hasSubstr "switch" rf.action
      let reference := if sw then f0.reference else rf.ref
      let matched2 := if sw then st.matched else st.matched ++ [i]
      let nm := if !truthyS f0.name then rf.name else f0.name
      let eP := elePair rf f0 (spatialNotes0 rf)
      let cP := colPair rf f0 eP.2
      let f1 := promUpdate
        { f0 with
          reference := reference
          name := nm
          elevation := eP.1
          colElevation := cP.1 }
      let f2 :=
        if cP.2 ≠ [] then
          { f1 with notes := some (String.intercalate "; " cP.2) }
        else f1
      .ok { notes := some cP.2, matched := matched2,
            candidate := st.candidate, out := st.out ++ [f2] }
    else
      let cand := st.candidate ++ [(i, f0.id)]
      let f1 := promUpdate f0
      match st.notes with
      | none => .error "UnboundLocalError: notes"
      | some ns =>
        let f2 :=
          if ns ≠ [] then
            { f1 with notes := some (String.intercalate "; " ns) }
          else f1
        .ok { notes := some ns, matched := st.matched,
              candidate := cand, out := st.out ++ [f2] }

/-- The spatial-mode run over the source features (the remainder sink
of lines 138–143 is downstream of the state and not separately
modelled). -/
def topoMatchSpatial (refs : List TRef) (src : List TFeature) :
    Except String SpState :=
  src.foldlM (spatialStep refs) ⟨none, [], [], []⟩

/-!
Grouping theory.  `Touched M S x` says record `x` appears in the match
set of some already-processed record; `MRel M S` is the matching edge
relation contributed by the processed records; the invariant `GInv`
characterises the `dmatch` state after any prefix of the processing
loop: a touched record is mapped to the sorted tuple of its equivalence
class under the generated equivalence, an untouched record is absent.
-/

def Touched (M : ℕ → List ℕ) (S : List ℕ) (x : ℕ) : Prop :=
  ∃ i ∈ S, x ∈ M i

def MRel (M : ℕ → List ℕ) (S : List ℕ) (a b : ℕ) : Prop :=
  ∃ i ∈ S, a ∈ M i ∧ b ∈ M i

structure GInv (M : ℕ → List ℕ) (S : List ℕ) (d : ℕ → List ℕ) : Prop where
  mem : ∀ x y, y ∈ d x ↔ Touched M S x ∧ Relation.EqvGen (MRel M S) x y
  srt : ∀ x, List.Sorted (· ≤ ·) (d x)
  nodup : ∀ x, (d x).Nodup

/-- The mutual MatchRelation between record indices: a record `a` of
the batch lists `b` in its confirmed mutual match set. -/
def MatchRelation (summits : List Summit) (dist : ℚ) (a b : ℕ) : Prop :=
  a < summits.length ∧ b ∈ pipeMatch summits dist a

/-- The three-record batch of the worked examples: records 0 and 1
mutually match, records 1 and 2 mutually match, record 0 sees record 2
at the anchor only. -/
def exThree : List Summit :=
  [⟨"SRTM", 100, 50, ⟨0, 0⟩, ⟨100, 0⟩⟩,
   ⟨"ASTER", 100, 50, ⟨1, 0⟩, ⟨105, 0⟩⟩,
   ⟨"ALOS", 100, 50, ⟨2, 0⟩, ⟨112, 0⟩⟩]

/-- The pathological batch for the original C1 statement: six records
with identical anchor points and identical secondary points. -/
def exSix : List Summit :=
  List.replicate 6 ⟨"SRTM", 10, 5, ⟨0, 0⟩, ⟨0, 0⟩⟩

/-!  Ranking-stage lemmas. -/

instance : Inhabited MFeature := ⟨⟨0, [], [], []⟩⟩

instance : Inhabited OutFeature := ⟨⟨0, "", 0, [], [], []⟩⟩

/-- Three single-member groups with prominences 120, 450 and 300
(records far apart, threshold 1). -/
def exRank : List Summit :=
  [⟨"SRTM", 120, 0, ⟨0, 0⟩, ⟨5, 0⟩⟩,
   ⟨"ASTER", 450, 0, ⟨1000, 0⟩, ⟨1005, 0⟩⟩,
   ⟨"ALOS", 300, 0, ⟨2000, 0⟩, ⟨2005, 0⟩⟩]

/-- A reference entry matched by key to feature S0001, carrying a
numeric col override. -/
def exC7Ref : TRef :=
  { matchKey := some "S0001", action := "ok", ref := some "R1",
    name := some "Peak", checkEle := some "wrong?", checkCol := some "5",
    geom := none }

/-- A source feature that carries a PRESENT col elevation of value 0. -/
def exC7Feat : TFeature :=
  { fid := 0, id := some "S0001", name := some "Old", elevation := some 120,
    colElevation := some 0, reference := none, prominence := none,
    notes := none, spt := ⟨0, 0⟩, cpt := ⟨0, 0⟩ }

/-- A reference entry whose action marker contains both "move" and
"switch", keyed to X and positioned at the origin. -/
def exC8Both : TRef :=
  { matchKey := some "X", action := "move switch", ref := some "R9",
    name := none, checkEle := none, checkCol := none,
    geom := some (⟨0, 0⟩, ⟨0, 0⟩) }

/-- A source feature with id X at the origin and no Reference. -/
def exC8Feat : TFeature :=
  { fid := 0, id := some "X", name := none, elevation := some 10,
    colElevation := some 4, reference := none, prominence := none,
    notes := none, spt := ⟨0, 0⟩, cpt := ⟨0, 0⟩ }

/-- The C8 counterexample reference entry: action marker "switch" in
key mode. -/
def exC8Switch : TRef :=
  { matchKey := some "X", action := "switch", ref := some "R9",
    name := none, checkEle := none, checkCol := none, geom := none }

/-- The C9 reference entry: geometry at the origin and (10, 10),
action "ok". -/
def exC9Ref : TRef :=
  { matchKey := none, action := "ok", ref := some "R1", name := some "N",
    checkEle := none, checkCol := none, geom := some (⟨0, 0⟩, ⟨10, 10⟩) }

/-- The same reference entry with the non-"ok" action marker "check"
(so a full match leaves a non-empty notes list behind). -/
def exC9RefCheck : TRef :=
  { exC9Ref with action := "check" }

/-- A source record whose anchor coincides with the reference anchor
but whose secondary point is far outside the secondary tolerance. -/
def exC9AnchorOnly : TFeature :=
  { fid := 0, id := some "A1", name := none, elevation := some 10,
    colElevation := some 4, reference := none, prominence := none,
    notes := some "original", spt := ⟨0, 0⟩, cpt := ⟨1, 1⟩ }

/-- A source record matching the reference at both endpoints. -/
def exC9Full : TFeature :=
  { fid := 0, id := some "F1", name := none, elevation := some 10,
    colElevation := some 4, reference := none, prominence := none,
    notes := none, spt := ⟨0, 0⟩, cpt := ⟨10, 10⟩ }

/-- Key-mode ordering example records: one with Reference R2, one
without a Reference (prominence 23 after the loop), one with R1. -/
def exC10 : List TFeature :=
  [{ fid := 7, id := some "A", name := none, elevation := some 10,
     colElevation := some 4, reference := some "R2", prominence := some 10,
     notes := none, spt := ⟨0, 0⟩, cpt := ⟨0, 0⟩ },
   { fid := 8, id := some "B", name := none, elevation := some 30,
     colElevation := some 7, reference := none, prominence := none,
     notes := none, spt := ⟨0, 0⟩, cpt := ⟨0, 0⟩ },
   { fid := 9, id := some "C", name := none, elevation := some 10,
     colElevation := some 5, reference := some "R1", prominence := some 5,
     notes := none, spt := ⟨0, 0⟩, cpt := ⟨0, 0⟩ }]

theorem qadd_eq (a b : ℚ) : qadd a b = a + b := by
  rw [qadd]
  conv_rhs => rw [← Rat.num_divInt_den a, ← Rat.num_divInt_den b]
  rw [Rat.divInt_add_divInt _ _ (Int.natCast_ne_zero.mpr a.den_nz)
    (Int.natCast_ne_zero.mpr b.den_nz)]

theorem qsub_eq (a b : ℚ) : qsub a b = a - b := by
  rw [qsub]
  conv_rhs => rw [← Rat.num_divInt_den a, ← Rat.num_divInt_den b]
  rw [Rat.divInt_sub_divInt _ _ (Int.natCast_ne_zero.mpr a.den_nz)
    (Int.natCast_ne_zero.mpr b.den_nz)]

theorem qmul_eq (a b : ℚ) : qmul a b = a * b := by
  rw [qmul]
  conv_rhs => rw [← Rat.num_divInt_den a, ← Rat.num_divInt_den b]
  rw [Rat.divInt_mul_divInt']

theorem qdiv_eq (a b : ℚ) : qdiv a b = a / b := by
  rw [qdiv]
  conv_rhs => rw [← Rat.num_divInt_den a, ← Rat.num_divInt_den b]
  rw [Rat.divInt_div_divInt]

theorem sqDist_eq (p q : Pt) :
    sqDist p q = (p.x - q.x) ^ 2 + (p.y - q.y) ^ 2 := by
  rw [sqDist, qadd_eq, qmul_eq, qmul_eq, qsub_eq, qsub_eq]
  ring

theorem strLtb_iff : ∀ x y : List Char, strLtb x y = true ↔ List.Lex (· < ·) x y
  | [], [] => by
    simp only [strLtb, Bool.false_eq_true, false_iff]
    intro h
    cases h
  | [], _ :: _ => by
    simp only [strLtb, true_iff]
    exact List.Lex.nil
  | _ :: _, [] => by
    simp only [strLtb, Bool.false_eq_true, false_iff]
    intro h
    cases h
  | a :: as, b :: bs => by
    by_cases hab : a = b
    · subst hab
      simp only [strLtb, eq_self_iff_true, if_true]
      rw [strLtb_iff as bs]
      constructor
      · exact fun h => List.Lex.cons h
      · intro h
        cases h with
        | cons h => exact h
        | rel h => exact absurd h (lt_irrefl a)
    · simp only [strLtb, if_neg hab, decide_eq_true_eq]
      constructor
      · exact fun h => List.Lex.rel h
      · intro h
        cases h with
        | cons h => exact absurd rfl hab
        | rel h => exact h

theorem pyStrLE_iff (a b : String) : pyStrLE a b = true ↔ a ≤ b := by
  rw [pyStrLE, Bool.not_eq_true', ← Bool.not_eq_true, strLtb_iff]
  show ¬ (b.toList < a.toList) ↔ a ≤ b
  rw [← String.lt_iff_toList_lt]
  exact not_lt

/-!  Supporting lemmas. -/

theorem sum_map_sub_eq (summits : List Summit) :
    ∀ g : List ℕ,
      (g.map (fun i => (sGet summits i).elev - (sGet summits i).colElev)).sum =
        groupElevSum summits g - groupColSum summits g
  | [] => by simp [groupElevSum, groupColSum]
  | i :: g => by
    simp only [groupElevSum, groupColSum, List.map_cons, List.sum_cons] at *
    rw [sum_map_sub_eq summits g]
    simp only [groupElevSum, groupColSum]
    ring

/-- Membership in a spatial-index query result: the id was indexed and
its point lies within the distance bound. -/
theorem mem_nearestNeighbor (entries : List IdxEntry) (p : Pt) (k : ℕ)
    (d : ℚ) (x : ℕ) (hx : x ∈ nearestNeighbor entries p k d) :
    ∃ pt, (x, pt) ∈ entries ∧ sqDist pt p ≤ qmul d d := by
  rw [nearestNeighbor] at hx
  obtain ⟨e, he, hex⟩ := List.mem_map.mp hx
  have h1 := (List.take_sublist _ _).subset he
  rw [List.mem_insertionSort] at h1
  rw [List.mem_filter] at h1
  subst hex
  exact ⟨e.2, h1.1, by simpa using h1.2⟩

/-- C2: for a non-empty group, the aggregate prominence of the built
canonical feature is the exact rational
(sum of member elevations − sum of member col elevations) / count,
and equals the exact average of the unrounded per-member prominences. -/
theorem aggregate_prominence_exact (summits : List Summit) (dist : ℚ)
    (g : List ℕ) (h : g ≠ []) :
    (buildFeature summits dist g).prom =
        ((groupElevSum summits g - groupColSum summits g : ℤ) : ℚ) /
          (g.length : ℚ) ∧
    (buildFeature summits dist g).prom =
        (((g.map (fun i => (sGet summits i).elev - (sGet summits i).colElev)).sum
            : ℤ) : ℚ) / (g.length : ℚ) := by
  constructor
  · rw [buildFeature, groupProm, qdiv_eq]
  · rw [buildFeature, groupProm, qdiv_eq, sum_map_sub_eq]

/-- C2 witness: the singleton group of one record with elevation 120
and col elevation 50. -/
theorem aggregate_prominence_exact_witness :
    ([0] : List ℕ) ≠ [] ∧
    ((buildFeature [⟨"SRTM", 120, 50, ⟨0,0⟩, ⟨1,1⟩⟩] 10 [0]).prom =
        ((groupElevSum [⟨"SRTM", 120, 50, ⟨0,0⟩, ⟨1,1⟩⟩] [0] -
          groupColSum [⟨"SRTM", 120, 50, ⟨0,0⟩, ⟨1,1⟩⟩] [0] : ℤ) : ℚ) /
          (([0] : List ℕ).length : ℚ) ∧
      (buildFeature [⟨"SRTM", 120, 50, ⟨0,0⟩, ⟨1,1⟩⟩] 10 [0]).prom =
        ((([0].map (fun i => (sGet [⟨"SRTM", 120, 50, ⟨0,0⟩, ⟨1,1⟩⟩] i).elev -
            (sGet [⟨"SRTM", 120, 50, ⟨0,0⟩, ⟨1,1⟩⟩] i).colElev)).sum : ℤ) : ℚ) /
          (([0] : List ℕ).length : ℚ)) :=
  ⟨by decide,
   aggregate_prominence_exact [⟨"SRTM", 120, 50, ⟨0,0⟩, ⟨1,1⟩⟩] 10 [0] (by decide)⟩

/-- C5: each record is matched through an anchor-index query with k = 5
and a secondary-index query with k = 20, both bounded by the
caller-supplied distance threshold (any returned id was indexed within
the threshold); an id is a confirmed mutual match exactly when it
appears in both query results, an anchor-only ambiguous link exactly
when it appears only in the anchor query, and a secondary-only
ambiguous link exactly when it appears only in the secondary query. -/
theorem mutual_matcher_classification (summits : List Summit) (dist : ℚ)
    (i x : ℕ) :
    anchorQuery summits dist i =
        nearestNeighbor (anchorEntries summits) (sGet summits i).spt 5 dist ∧
    colQuery summits dist i =
        nearestNeighbor (colEntries summits) (sGet summits i).cpt 20 dist ∧
    (x ∈ anchorQuery summits dist i →
      ∃ pt, (x, pt) ∈ anchorEntries summits ∧
        sqDist pt (sGet summits i).spt ≤ qmul dist dist) ∧
    (x ∈ colQuery summits dist i →
      ∃ pt, (x, pt) ∈ colEntries summits ∧
        sqDist pt (sGet summits i).cpt ≤ qmul dist dist) ∧
    (x ∈ mutualMatches summits dist i ↔
      x ∈ anchorQuery summits dist i ∧ x ∈ colQuery summits dist i) ∧
    (x ∈ anchorOnly summits dist i ↔
      x ∈ anchorQuery summits dist i ∧ x ∉ colQuery summits dist i) ∧
    (x ∈ secondaryOnly summits dist i ↔
      x ∈ colQuery summits dist i ∧ x ∉ anchorQuery summits dist i) := by
  refine ⟨rfl, rfl, ?_, ?_, ?_, ?_, ?_⟩
  · exact fun hx => mem_nearestNeighbor _ _ _ _ _ hx
  · exact fun hx => mem_nearestNeighbor _ _ _ _ _ hx
  · rw [mutualMatches, List.mem_filter]
    simp
  · rw [anchorOnly, List.mem_filter]
    simp
  · rw [secondaryOnly, List.mem_filter]
    simp

theorem find?_append_isSome {α : Type} (p : α → Bool) (l1 l2 : List α) :
    ((l1 ++ l2).find? p).isSome = ((l1.find? p).isSome || (l2.find? p).isSome) := by
  induction l1 with
  | nil => simp
  | cons a l ih =>
    by_cases h : p a
    · simp [List.find?_cons_of_pos _ h]
    · simpa [List.find?_cons_of_neg _ h] using ih

theorem assignLayers_error :
    ∀ (layers : List Layer) (acc : List (String × Layer)),
    ((∃ ly ∈ layers, inferTag ly.lname = none) ∨
     (∃ t, 2 ≤ layers.countP (fun ly => decide (inferTag ly.lname = some t))) ∨
     (∃ ly ∈ layers, ∃ t, inferTag ly.lname = some t ∧
        (acc.find? (fun p => p.1 = t)).isSome)) →
    ∃ e, assignLayers layers acc = Except.error e
  | [], acc => by
    rintro (⟨ly, hly, _⟩ | ⟨t, ht⟩ | ⟨ly, hly, _⟩)
    · exact absurd hly (List.not_mem_nil ly)
    · simp [List.countP_nil] at ht
    · exact absurd hly (List.not_mem_nil ly)
  | ly :: rest, acc => by
    intro h
    cases htag : inferTag ly.lname with
    | none =>
      exact ⟨MergeError.unknownDem ly.lname, by simp [assignLayers, htag]⟩
    | some t =>
      by_cases hdup : ((acc.find? (fun p => p.1 = t)).isSome : Bool)
      · exact ⟨MergeError.duplicateDem ly.lname, by simp [assignLayers, htag, hdup]⟩
      · have hrec : assignLayers (ly :: rest) acc =
            assignLayers rest (acc ++ [(t, ly)]) := by
          simp [assignLayers, htag, hdup]
        rw [hrec]
        apply assignLayers_error rest (acc ++ [(t, ly)])
        rcases h with ⟨ly2, hly2, hnone⟩ | ⟨t2, hcnt⟩ | ⟨ly2, hly2, t2, ht2, hfind⟩
        · rcases List.mem_cons.mp hly2 with h1 | h1
          · subst h1
            exact absurd hnone (by simp [htag])
          · exact Or.inl ⟨ly2, h1, hnone⟩
        · rw [List.countP_cons] at hcnt
          by_cases hhead : inferTag ly.lname = some t2
          · have ht2t : t2 = t := by
              rw [htag] at hhead
              exact (Option.some_inj.mp hhead).symm
            subst ht2t
            have h1 : 1 ≤ rest.countP (fun l2 => decide (inferTag l2.lname = some t2)) := by
              simpa [hhead] using hcnt
            obtain ⟨ly2, hly2, hp⟩ := List.countP_pos_iff.mp h1
            refine Or.inr (Or.inr ⟨ly2, hly2, t2, of_decide_eq_true hp, ?_⟩)
            rw [find?_append_isSome]
            simp
          · have h2 : 2 ≤ rest.countP (fun l2 => decide (inferTag l2.lname = some t2)) := by
              simpa [hhead] using hcnt
            exact Or.inr (Or.inl ⟨t2, h2⟩)
        · rcases List.mem_cons.mp hly2 with h1 | h1
          · subst h1
            rw [htag] at ht2
            have : t2 = t := (Option.some_inj.mp ht2).symm
            subst this
            exact absurd hfind (by simpa using hdup)
          · refine Or.inr (Or.inr ⟨ly2, h1, t2, ht2, ?_⟩)
            rw [find?_append_isSome, hfind]
            simp

/-- C6: a layer whose name infers no recognized source tag, or two
layers inferring the same source tag, abort the run with a
configuration error, and no output features are produced (the run
yields an error, not a feature list; validation precedes every
feature-producing stage). -/
theorem config_error_aborts (layers : List Layer) (dist : ℚ)
    (h : (∃ ly ∈ layers, inferTag ly.lname = none) ∨
         (∃ t, 2 ≤ layers.countP (fun ly => decide (inferTag ly.lname = some t)))) :
    ∃ e, mergeRun layers dist = Except.error e := by
  obtain ⟨e, he⟩ := assignLayers_error layers []
    (by
      rcases h with h1 | h2
      · exact Or.inl h1
      · exact Or.inr (Or.inl h2))
  exact ⟨e, by simp [mergeRun, processLayers, he, Except.map]⟩

/-- C6 witness, the example of the claim: two layers both inferring
source tag SRTM (case-insensitively) abort with an error. -/
theorem config_error_aborts_witness :
    ((∃ ly ∈ ([⟨"SRTM A", []⟩, ⟨"my srtm B", []⟩] : List Layer),
        inferTag ly.lname = none) ∨
     (∃ t, 2 ≤ ([⟨"SRTM A", []⟩, ⟨"my srtm B", []⟩] : List Layer).countP
        (fun ly => decide (inferTag ly.lname = some t)))) ∧
    (∃ e, mergeRun [⟨"SRTM A", []⟩, ⟨"my srtm B", []⟩] 1 = Except.error e) :=
  ⟨Or.inr ⟨"SRTM", by decide⟩,
   config_error_aborts [⟨"SRTM A", []⟩, ⟨"my srtm B", []⟩] 1
     (Or.inr ⟨"SRTM", by decide⟩)⟩

theorem mem_sortDedup {l : List ℕ} {x : ℕ} : x ∈ sortDedup l ↔ x ∈ l := by
  rw [sortDedup, List.mem_insertionSort, List.mem_dedup]

theorem sortDedup_sorted (l : List ℕ) : List.Sorted (· ≤ ·) (sortDedup l) :=
  List.sorted_insertionSort _ _

theorem sortDedup_nodup (l : List ℕ) : (sortDedup l).Nodup :=
  ((List.perm_insertionSort _ _).nodup_iff).mpr l.nodup_dedup

theorem sorted_nodup_ext {l1 l2 : List ℕ} (s1 : List.Sorted (· ≤ ·) l1)
    (s2 : List.Sorted (· ≤ ·) l2) (n1 : l1.Nodup) (n2 : l2.Nodup)
    (h : ∀ x, x ∈ l1 ↔ x ∈ l2) : l1 = l2 :=
  List.eq_of_perm_of_sorted ((List.perm_ext_iff_of_nodup n1 n2).mpr h) s1 s2

theorem mrel_symm {M : ℕ → List ℕ} {S : List ℕ} {a b : ℕ}
    (h : MRel M S a b) : MRel M S b a := by
  obtain ⟨i, hi, ha, hb⟩ := h
  exact ⟨i, hi, hb, ha⟩

theorem reach_touched {M : ℕ → List ℕ} {S : List ℕ} {x y : ℕ}
    (h : Relation.EqvGen (MRel M S) x y) :
    x = y ∨ (Touched M S x ∧ Touched M S y) := by
  induction h with
  | rel a b hr =>
    obtain ⟨i, hi, ha, hb⟩ := hr
    exact Or.inr ⟨⟨i, hi, ha⟩, ⟨i, hi, hb⟩⟩
  | refl a => exact Or.inl rfl
  | symm a b _ ih =>
    rcases ih with h1 | ⟨h1, h2⟩
    · exact Or.inl h1.symm
    · exact Or.inr ⟨h2, h1⟩
  | trans a b c _ _ ih1 ih2 =>
    rcases ih1 with rfl | ⟨h1, h2⟩
    · exact ih2
    · rcases ih2 with rfl | ⟨h3, h4⟩
      · exact Or.inr ⟨h1, h2⟩
      · exact Or.inr ⟨h1, h4⟩

theorem eqvGen_closed {α : Type} {R : α → α → Prop} {P : α → Prop}
    (hcl : ∀ a b, R a b → (P a ↔ P b)) {x y : α}
    (h : Relation.EqvGen R x y) : P x ↔ P y := by
  induction h with
  | rel a b hr => exact hcl a b hr
  | refl a => exact Iff.rfl
  | symm a b _ ih => exact ih.symm
  | trans a b c _ _ ih1 ih2 => exact ih1.trans ih2

theorem ginv_consistent {M : ℕ → List ℕ} {S : List ℕ} {d : ℕ → List ℕ}
    (inv : GInv M S d) {x y : ℕ} (hy : y ∈ d x) : d y = d x := by
  have hx := (inv.mem x y).mp hy
  apply sorted_nodup_ext (inv.srt y) (inv.srt x) (inv.nodup y) (inv.nodup x)
  intro w
  rw [inv.mem, inv.mem]
  have hty : Touched M S y := by
    rcases reach_touched hx.2 with rfl | ⟨_, h2⟩
    · exact hx.1
    · exact h2
  constructor
  · rintro ⟨_, hr⟩
    exact ⟨hx.1, hx.2.trans _ _ _ hr⟩
  · rintro ⟨_, hr⟩
    exact ⟨hty, (Relation.EqvGen.symm _ _ hx.2).trans _ _ _ hr⟩

theorem touched_append {M : ℕ → List ℕ} {S : List ℕ} {i x : ℕ} :
    Touched M (S ++ [i]) x ↔ Touched M S x ∨ x ∈ M i := by
  constructor
  · rintro ⟨j, hj, hx⟩
    rcases List.mem_append.mp hj with h1 | h1
    · exact Or.inl ⟨j, h1, hx⟩
    · rw [List.mem_singleton] at h1
      subst h1
      exact Or.inr hx
  · rintro (⟨j, hj, hx⟩ | hx)
    · exact ⟨j, List.mem_append.mpr (Or.inl hj), hx⟩
    · exact ⟨i, List.mem_append.mpr (Or.inr (List.mem_singleton.mpr rfl)), hx⟩

theorem mrel_append {M : ℕ → List ℕ} {S : List ℕ} {i a b : ℕ} :
    MRel M (S ++ [i]) a b ↔ MRel M S a b ∨ (a ∈ M i ∧ b ∈ M i) := by
  constructor
  · rintro ⟨j, hj, ha, hb⟩
    rcases List.mem_append.mp hj with h1 | h1
    · exact Or.inl ⟨j, h1, ha, hb⟩
    · rw [List.mem_singleton] at h1
      subst h1
      exact Or.inr ⟨ha, hb⟩
  · rintro (⟨j, hj, ha, hb⟩ | ⟨ha, hb⟩)
    · exact ⟨j, List.mem_append.mpr (Or.inl hj), ha, hb⟩
    · exact ⟨i, List.mem_append.mpr (Or.inr (List.mem_singleton.mpr rfl)), ha, hb⟩

theorem mem_mergeStep_grp {M : ℕ → List ℕ} {d : ℕ → List ℕ} {i x : ℕ} :
    x ∈ sortDedup (M i ++ ((M i).map d).flatten) ↔
      x ∈ M i ∨ ∃ z ∈ M i, x ∈ d z := by
  rw [mem_sortDedup, List.mem_append, List.mem_flatten]
  constructor
  · rintro (h1 | ⟨l, hl, hx⟩)
    · exact Or.inl h1
    · obtain ⟨z, hz, rfl⟩ := List.mem_map.mp hl
      exact Or.inr ⟨z, hz, hx⟩
  · rintro (h1 | ⟨z, hz, hx⟩)
    · exact Or.inl h1
    · exact Or.inr ⟨d z, List.mem_map.mpr ⟨z, hz, rfl⟩, hx⟩

theorem mergeStep_inv {M : ℕ → List ℕ} {S : List ℕ} {d : ℕ → List ℕ} {i : ℕ}
    (inv : GInv M S d) : GInv M (S ++ [i]) (mergeStep M d i) := by
  set grp := sortDedup (M i ++ ((M i).map d).flatten) with hgrp
  have hstep : ∀ x, mergeStep M d i x = if x ∈ grp then grp else d x :=
    fun x => rfl
  -- every member of the new group reaches some member of `M i`
  have hhub : ∀ a ∈ grp, ∃ z ∈ M i, Relation.EqvGen (MRel M (S ++ [i])) z a := by
    intro a ha
    rcases mem_mergeStep_grp.mp ha with h1 | ⟨z, hz, hd⟩
    · exact ⟨a, h1, Relation.EqvGen.refl a⟩
    · have hr := ((inv.mem z a).mp hd).2
      refine ⟨z, hz, ?_⟩
      exact hr.mono (fun p q hpq => mrel_append.mpr (Or.inl hpq))
  -- the new group is closed under the extended edge relation
  have hclosed : ∀ a b, MRel M (S ++ [i]) a b → a ∈ grp → b ∈ grp := by
    intro a b hab ha
    rcases mrel_append.mp hab with ⟨j, hj, haj, hbj⟩ | ⟨_, hbi⟩
    · have hta : Touched M S a := ⟨j, hj, haj⟩
      have hrab : Relation.EqvGen (MRel M S) a b :=
        Relation.EqvGen.rel _ _ ⟨j, hj, haj, hbj⟩
      have hbda : b ∈ d a := (inv.mem a b).mpr ⟨hta, hrab⟩
      rcases mem_mergeStep_grp.mp ha with h1 | ⟨z, hz, hd⟩
      · exact mem_mergeStep_grp.mpr (Or.inr ⟨a, h1, hbda⟩)
      · have : d a = d z := ginv_consistent inv hd
        exact mem_mergeStep_grp.mpr (Or.inr ⟨z, hz, this ▸ hbda⟩)
    · exact mem_mergeStep_grp.mpr (Or.inl hbi)
  have hclIff : ∀ a b, MRel M (S ++ [i]) a b → (a ∈ grp ↔ b ∈ grp) := by
    intro a b hab
    exact ⟨hclosed a b hab, hclosed b a (mrel_symm hab)⟩
  refine ⟨?_, ?_, ?_⟩
  · intro x y
    rw [hstep x]
    by_cases hx : x ∈ grp
    · rw [if_pos hx]
      constructor
      · intro hy
        refine ⟨?_, ?_⟩
        · rcases mem_mergeStep_grp.mp hx with h1 | ⟨z, hz, hd⟩
          · exact touched_append.mpr (Or.inr h1)
          · have hp := (inv.mem z x).mp hd
            have htx : Touched M S x := by
              rcases reach_touched hp.2 with rfl | ⟨_, h2⟩
              · exact hp.1
              · exact h2
            exact touched_append.mpr (Or.inl htx)
        · obtain ⟨zx, hzx, hrx⟩ := hhub x hx
          obtain ⟨zy, hzy, hry⟩ := hhub y hy
          have hedge : Relation.EqvGen (MRel M (S ++ [i])) zx zy :=
            Relation.EqvGen.rel _ _
              ⟨i, List.mem_append.mpr (Or.inr (List.mem_singleton.mpr rfl)),
               hzx, hzy⟩
          exact ((Relation.EqvGen.symm _ _ hrx).trans _ _ _ hedge).trans _ _ _ hry
      · rintro ⟨_, hr⟩
        exact (eqvGen_closed hclIff hr).mp hx
    · rw [if_neg hx]
      constructor
      · intro hy
        obtain ⟨ht, hr⟩ := (inv.mem x y).mp hy
        refine ⟨touched_append.mpr (Or.inl ht), ?_⟩
        exact hr.mono (fun p q hpq => mrel_append.mpr (Or.inl hpq))
      · rintro ⟨ht, hr⟩
        have htS : Touched M S x := by
          rcases touched_append.mp ht with h1 | h1
          · exact h1
          · exact absurd (mem_mergeStep_grp.mpr (Or.inl h1)) hx
        have hxx : x ∈ d x := (inv.mem x x).mpr ⟨htS, Relation.EqvGen.refl x⟩
        -- `d x` is closed under the extended edges
        have hdxcl : ∀ a b, MRel M (S ++ [i]) a b → (a ∈ d x ↔ b ∈ d x) := by
          have hone : ∀ a b, MRel M (S ++ [i]) a b → a ∈ d x → b ∈ d x := by
            intro a b hab ha
            rcases mrel_append.mp hab with ⟨j, hj, haj, hbj⟩ | ⟨hai, _⟩
            · obtain ⟨_, hrxa⟩ := (inv.mem x a).mp ha
              refine (inv.mem x b).mpr ⟨htS, ?_⟩
              exact hrxa.trans _ _ _ (Relation.EqvGen.rel _ _ ⟨j, hj, haj, hbj⟩)
            · have hda : d a = d x := ginv_consistent inv ha
              have : x ∈ d a := hda.symm ▸ hxx
              exact absurd (mem_mergeStep_grp.mpr (Or.inr ⟨a, hai, this⟩)) hx
          intro a b hab
          exact ⟨hone a b hab, hone b a (mrel_symm hab)⟩
        exact (eqvGen_closed hdxcl hr).mp hxx
  · intro x
    rw [hstep x]
    by_cases hx : x ∈ grp
    · rw [if_pos hx]
      exact sortDedup_sorted _
    · rw [if_neg hx]
      exact inv.srt x
  · intro x
    rw [hstep x]
    by_cases hx : x ∈ grp
    · rw [if_pos hx]
      exact sortDedup_nodup _
    · rw [if_neg hx]
      exact inv.nodup x

theorem ginv_empty (M : ℕ → List ℕ) : GInv M [] (fun _ => []) := by
  refine ⟨?_, fun _ => List.sorted_nil, fun _ => List.nodup_nil⟩
  intro x y
  simp only [List.not_mem_nil, false_iff, not_and]
  rintro ⟨i, hi, _⟩
  exact absurd hi (List.not_mem_nil i)

theorem foldl_inv (M : ℕ → List ℕ) :
    ∀ (ord S : List ℕ) (d : ℕ → List ℕ), GInv M S d →
      GInv M (S ++ ord) (ord.foldl (mergeStep M) d)
  | [], S, d, inv => by simpa using inv
  | i :: ord, S, d, inv => by
    have h2 := foldl_inv M ord (S ++ [i]) (mergeStep M d i) (mergeStep_inv inv)
    simpa [List.append_assoc] using h2

theorem buildGroups_inv (M : ℕ → List ℕ) (ord : List ℕ) :
    GInv M ord (buildGroups M ord) := by
  have h := foldl_inv M ord [] (fun _ => []) (ginv_empty M)
  simpa [buildGroups] using h

theorem touched_congr {M : ℕ → List ℕ} {S1 S2 : List ℕ}
    (h : ∀ j, j ∈ S1 ↔ j ∈ S2) {x : ℕ} :
    Touched M S1 x ↔ Touched M S2 x := by
  constructor
  · rintro ⟨j, hj, hx⟩
    exact ⟨j, (h j).mp hj, hx⟩
  · rintro ⟨j, hj, hx⟩
    exact ⟨j, (h j).mpr hj, hx⟩

theorem reach_congr {M : ℕ → List ℕ} {S1 S2 : List ℕ}
    (h : ∀ j, j ∈ S1 ↔ j ∈ S2) {x y : ℕ} :
    Relation.EqvGen (MRel M S1) x y ↔ Relation.EqvGen (MRel M S2) x y := by
  constructor
  · intro hr
    refine hr.mono (fun p q hpq => ?_)
    obtain ⟨j, hj, hp, hq⟩ := hpq
    exact ⟨j, (h j).mp hj, hp, hq⟩
  · intro hr
    refine hr.mono (fun p q hpq => ?_)
    obtain ⟨j, hj, hp, hq⟩ := hpq
    exact ⟨j, (h j).mpr hj, hp, hq⟩

theorem buildGroups_order_insensitive {M : ℕ → List ℕ} {ord1 ord2 : List ℕ}
    (h : ∀ j, j ∈ ord1 ↔ j ∈ ord2) (x : ℕ) :
    buildGroups M ord1 x = buildGroups M ord2 x := by
  have i1 := buildGroups_inv M ord1
  have i2 := buildGroups_inv M ord2
  apply sorted_nodup_ext (i1.srt x) (i2.srt x) (i1.nodup x) (i2.nodup x)
  intro y
  rw [i1.mem, i2.mem, touched_congr h, reach_congr h]

theorem pipeMatch_lt (summits : List Summit) (dist : ℚ) (i x : ℕ)
    (hx : x ∈ pipeMatch summits dist i) : x < summits.length := by
  rw [pipeMatch, mutualMatches] at hx
  have h1 := (List.mem_filter.mp hx).1
  obtain ⟨pt, hpt, _⟩ := mem_nearestNeighbor _ _ _ _ _ h1
  rw [anchorEntries] at hpt
  obtain ⟨e, he, heq⟩ := List.mem_map.mp hpt
  have hlt := List.fst_lt_of_mem_enum he
  have : e.1 = x := congrArg Prod.fst heq
  omega

theorem reach_iff_matchRel (summits : List Summit) (dist : ℚ)
    (hself : ∀ i < summits.length, i ∈ pipeMatch summits dist i) (x y : ℕ) :
    Relation.EqvGen (MRel (pipeMatch summits dist)
        (List.range summits.length)) x y ↔
      Relation.EqvGen (MatchRelation summits dist) x y := by
  constructor
  · intro h
    induction h with
    | rel a b hr =>
      obtain ⟨i, hi, ha, hb⟩ := hr
      rw [List.mem_range] at hi
      have h1 : Relation.EqvGen (MatchRelation summits dist) i a :=
        Relation.EqvGen.rel _ _ ⟨hi, ha⟩
      have h2 : Relation.EqvGen (MatchRelation summits dist) i b :=
        Relation.EqvGen.rel _ _ ⟨hi, hb⟩
      exact (Relation.EqvGen.symm _ _ h1).trans _ _ _ h2
    | refl a => exact Relation.EqvGen.refl a
    | symm a b _ ih => exact Relation.EqvGen.symm _ _ ih
    | trans a b c _ _ ih1 ih2 => exact ih1.trans _ _ _ ih2
  · intro h
    refine h.mono (fun a b hab => ?_)
    exact ⟨a, List.mem_range.mpr hab.1, hself a hab.1, hab.2⟩

/-- C1 (amended): provided every record appears in its own mutual
match set (as happens whenever its own entry is returned by both of
its bounded nearest-neighbour queries), the chaining loop partitions
the record index space — every record lies in its own emitted group
and in no other — the partition is the equivalence closure (the
union-find partition) of the mutual match relation, and the result is
the same for every processing order of the records. -/
theorem grouping_partition (summits : List Summit) (dist : ℚ)
    (hself : ∀ i < summits.length, i ∈ pipeMatch summits dist i) :
    (∀ ord : List ℕ, (∀ j, j ∈ ord ↔ j ∈ List.range summits.length) →
      ∀ x, buildGroups (pipeMatch summits dist) ord x =
        buildGroups (pipeMatch summits dist) (List.range summits.length) x) ∧
    (∀ x < summits.length,
      x ∈ buildGroups (pipeMatch summits dist) (List.range summits.length) x ∧
      buildGroups (pipeMatch summits dist) (List.range summits.length) x ∈
        dmList (pipeMatch summits dist) summits.length) ∧
    (∀ x < summits.length,
      ∀ g ∈ dmList (pipeMatch summits dist) summits.length,
      (x ∈ g ↔
        g = buildGroups (pipeMatch summits dist) (List.range summits.length) x)) ∧
    (∀ x y, x < summits.length → y < summits.length →
      (y ∈ buildGroups (pipeMatch summits dist) (List.range summits.length) x ↔
        Relation.EqvGen (MatchRelation summits dist) x y)) := by
  have inv := buildGroups_inv (pipeMatch summits dist)
    (List.range summits.length)
  have hmem_self : ∀ x, x < summits.length →
      x ∈ buildGroups (pipeMatch summits dist) (List.range summits.length) x := by
    intro x hx
    exact (inv.mem x x).mpr
      ⟨⟨x, List.mem_range.mpr hx, hself x hx⟩, Relation.EqvGen.refl x⟩
  have hdm : ∀ g, g ∈ dmList (pipeMatch summits dist) summits.length ↔
      (∃ z ∈ List.range summits.length,
        buildGroups (pipeMatch summits dist) (List.range summits.length) z = g) ∧
      g ≠ [] := by
    intro g
    rw [dmList, List.mem_dedup, List.mem_filter]
    constructor
    · rintro ⟨h1, h2⟩
      obtain ⟨z, hz, hzg⟩ := List.mem_map.mp h1
      refine ⟨⟨z, hz, hzg⟩, ?_⟩
      simpa using h2
    · rintro ⟨⟨z, hz, hzg⟩, h2⟩
      exact ⟨List.mem_map.mpr ⟨z, hz, hzg⟩, by simpa using h2⟩
  refine ⟨?_, ?_, ?_, ?_⟩
  · exact fun ord h x => buildGroups_order_insensitive h x
  · intro x hx
    refine ⟨hmem_self x hx, ?_⟩
    refine (hdm _).mpr ⟨⟨x, List.mem_range.mpr hx, rfl⟩, ?_⟩
    intro hnil
    have := hmem_self x hx
    rw [hnil] at this
    exact absurd this (List.not_mem_nil x)
  · intro x hx g hg
    obtain ⟨⟨z, _, hzg⟩, _⟩ := (hdm g).mp hg
    constructor
    · intro hxg
      rw [← hzg] at hxg
      rw [← hzg, ginv_consistent inv hxg]
    · intro h
      rw [h]
      exact hmem_self x hx
  · intro x y hx _
    rw [inv.mem, reach_iff_matchRel summits dist hself]
    constructor
    · exact fun h => h.2
    · exact fun h => ⟨⟨x, List.mem_range.mpr hx, hself x hx⟩, h⟩

/-- C1 witness: the three-record batch, every record in its own match
set (distance threshold 10). -/
theorem grouping_partition_witness :
    (∀ i < exThree.length, i ∈ pipeMatch exThree 10 i) ∧
    ((∀ ord : List ℕ, (∀ j, j ∈ ord ↔ j ∈ List.range exThree.length) →
      ∀ x, buildGroups (pipeMatch exThree 10) ord x =
        buildGroups (pipeMatch exThree 10) (List.range exThree.length) x) ∧
    (∀ x < exThree.length,
      x ∈ buildGroups (pipeMatch exThree 10) (List.range exThree.length) x ∧
      buildGroups (pipeMatch exThree 10) (List.range exThree.length) x ∈
        dmList (pipeMatch exThree 10) exThree.length) ∧
    (∀ x < exThree.length,
      ∀ g ∈ dmList (pipeMatch exThree 10) exThree.length,
      (x ∈ g ↔
        g = buildGroups (pipeMatch exThree 10) (List.range exThree.length) x)) ∧
    (∀ x y, x < exThree.length → y < exThree.length →
      (y ∈ buildGroups (pipeMatch exThree 10) (List.range exThree.length) x ↔
        Relation.EqvGen (MatchRelation exThree 10) x y))) :=
  ⟨by decide, grouping_partition exThree 10 (by decide)⟩

/-- C1 counterexample: in the six-coincident-record batch (threshold
1), record 5 confirms a mutual match with record 0, yet — its own
anchor query being filled by the five earlier ties — it is dropped
from `dmatch` and belongs to no group at all: the groups do not
partition the record index space. -/
theorem grouping_partition_counterexample :
    exSix.length = 6 ∧
    (0 : ℕ) ∈ pipeMatch exSix 1 5 ∧
    buildGroups (pipeMatch exSix 1) (List.range 6) 5 = [] ∧
    ∀ g ∈ dmList (pipeMatch exSix 1) 6, (5 : ℕ) ∉ g := by
  refine ⟨rfl, by decide, by decide, by decide⟩

instance : IsTotal (ℕ × MFeature) promGE :=
  ⟨fun a b => le_total b.2.prom a.2.prom⟩

instance : IsTrans (ℕ × MFeature) promGE :=
  ⟨fun _ _ _ h1 h2 => le_trans h2 h1⟩

/-- The feature emitted at rank `r` carries `fid = r` and the
fixed-width identifier of `r + 1`. -/
theorem mergeOutput_at (summits : List Summit) (dist : ℚ) (r : ℕ)
    (hr : r < (mergeOutput summits dist).length) :
    ((mergeOutput summits dist).getD r default).fid = r ∧
    ((mergeOutput summits dist).getD r default).id = fmtID (r + 1) := by
  rw [mergeOutput] at hr ⊢
  rw [List.getD_eq_getElem _ _ hr]
  rw [List.getElem_map]
  rw [List.getElem_enum]
  exact ⟨rfl, rfl⟩

theorem snd_mem_of_mem_enumFrom {α : Type} :
    ∀ {l : List α} {n : ℕ} {q : ℕ × α}, q ∈ l.enumFrom n → q.2 ∈ l
  | [], _, q, h => absurd h (List.not_mem_nil q)
  | b :: l, n, q, h => by
    rw [List.enumFrom_cons] at h
    rcases List.mem_cons.mp h with rfl | h2
    · exact List.mem_cons_self _ _
    · exact List.mem_cons_of_mem _ (snd_mem_of_mem_enumFrom h2)

theorem pairwise_enumFrom_of_pairwise {α : Type} {R : α → α → Prop} :
    ∀ (l : List α) (n : ℕ), l.Pairwise R →
      (l.enumFrom n).Pairwise (fun p q => R p.2 q.2)
  | [], _, _ => List.Pairwise.nil
  | a :: l, n, h => by
    rw [List.enumFrom_cons]
    refine List.Pairwise.cons ?_ (pairwise_enumFrom_of_pairwise l (n + 1) h.of_cons)
    intro q hq
    exact List.rel_of_pairwise_cons h (snd_mem_of_mem_enumFrom hq)

/-- Inserting into a descending-sorted list, the elements of any fixed
prominence value keep their relative order: everything strictly above
the inserted value stays in front and cannot share its value. -/
theorem filter_orderedInsert_promGE (v : ℚ) (a : ℕ × MFeature) :
    ∀ l : List (ℕ × MFeature), List.Sorted promGE l →
      (l.orderedInsert promGE a).filter (fun x => decide (x.2.prom = v)) =
        if a.2.prom = v then
          a :: l.filter (fun x => decide (x.2.prom = v))
        else l.filter (fun x => decide (x.2.prom = v))
  | [], _ => by
    by_cases h : a.2.prom = v <;> simp [List.orderedInsert, h]
  | b :: l, hs => by
    rw [List.orderedInsert]
    by_cases hr : promGE a b
    · rw [if_pos hr]
      by_cases h : a.2.prom = v <;> simp [List.filter_cons, h]
    · rw [if_neg hr]
      have hlt : a.2.prom < b.2.prom := not_le.mp hr
      have ih := filter_orderedInsert_promGE v a l hs.of_cons
      by_cases h : a.2.prom = v
      · have hb : ¬ (b.2.prom = v) := by
          rw [← h]
          exact ne_of_gt hlt
        rw [if_pos h] at ih
        simp [List.filter_cons, hb, ih, h]
      · rw [if_neg h] at ih
        by_cases hb : b.2.prom = v <;> simp [List.filter_cons, hb, ih, h]

/-- Stability of the descending prominence sort: for every prominence
value, the sorted list keeps the original relative order of the
entries carrying that value. -/
theorem filter_insertionSort_promGE (v : ℚ) :
    ∀ l : List (ℕ × MFeature),
      (l.insertionSort promGE).filter (fun x => decide (x.2.prom = v)) =
        l.filter (fun x => decide (x.2.prom = v))
  | [] => rfl
  | a :: l => by
    rw [List.insertionSort,
      filter_orderedInsert_promGE v a _ (List.sorted_insertionSort promGE l),
      filter_insertionSort_promGE v l, List.filter_cons]
    by_cases h : a.2.prom = v <;> simp [h]

/-- C3 (amended): the output of the merge engine is sorted by
descending aggregate prominence; entities of equal prominence keep
their provisional (construction-order) relative order; the final
identifier of the entity at (0-based) rank `r` is the fixed-width
token of `r + 1`, as is its `fid`.  (For three single-member groups
with prominences 120, 450, 300 this assigns final identifiers 3, 1, 2
respectively — see the counterexample for the identifiers the original
claim expected.) -/
theorem ranking_sorted_stable (summits : List Summit) (dist : ℚ) :
    (mergeOutput summits dist).Pairwise (fun a b => b.prom ≤ a.prom) ∧
    (∀ v : ℚ, ((rankedPairs (provFeatures summits dist)).filter
        (fun p => decide (p.2.prom = v))).map Prod.fst =
      (((provFeatures summits dist).enum).filter
        (fun p => decide (p.2.prom = v))).map Prod.fst) ∧
    (∀ r, r < (mergeOutput summits dist).length →
      ((mergeOutput summits dist).getD r default).fid = r ∧
      ((mergeOutput summits dist).getD r default).id = fmtID (r + 1)) := by
  refine ⟨?_, ?_, ?_⟩
  · have hs : List.Sorted promGE (rankedPairs (provFeatures summits dist)) :=
      List.sorted_insertionSort promGE _
    rw [mergeOutput]
    rw [List.pairwise_map]
    have henum : ((rankedPairs (provFeatures summits dist)).enum).Pairwise
        (fun p q => promGE p.2 q.2) :=
      pairwise_enumFrom_of_pairwise _ 0 hs
    exact henum.imp (fun h => h)
  · intro v
    rw [rankedPairs, filter_insertionSort_promGE]
  · exact fun r hr => mergeOutput_at summits dist r hr

/-- C3 counterexample: three single-member groups with prominences
120, 450, 300 receive final identifiers 3, 1, 2 — not 2, 1, 3 as the
claim states: the output the claimed assignment would produce differs
from the output the engine produces. -/
theorem ranking_example_counterexample :
    (mergeOutput exRank 1).map (fun f => (f.prom, f.id)) =
      [((450 : ℚ), "S0001"), ((300 : ℚ), "S0002"), ((120 : ℚ), "S0003")] ∧
    ¬ ((mergeOutput exRank 1).map (fun f => (f.prom, f.id)) =
      [((450 : ℚ), "S0001"), ((120 : ℚ), "S0002"), ((300 : ℚ), "S0003")]) := by
  constructor
  · decide
  · decide

/-- C3 witness (the amended theorem applied to the same concrete
batch). -/
theorem ranking_sorted_stable_witness :
    (mergeOutput exRank 1).Pairwise (fun a b => b.prom ≤ a.prom) ∧
    (∀ v : ℚ, ((rankedPairs (provFeatures exRank 1)).filter
        (fun p => decide (p.2.prom = v))).map Prod.fst =
      (((provFeatures exRank 1).enum).filter
        (fun p => decide (p.2.prom = v))).map Prod.fst) ∧
    (∀ r, r < (mergeOutput exRank 1).length →
      ((mergeOutput exRank 1).getD r default).fid = r ∧
      ((mergeOutput exRank 1).getD r default).id = fmtID (r + 1)) :=
  ranking_sorted_stable exRank 1

/-!  Link-rewriting lemmas. -/

theorem ranks_length (fs : List MFeature) : (ranks fs).length = fs.length := by
  rw [ranks, rankedPairs, List.length_map, List.length_insertionSort,
    List.enum_length]

theorem mergeOutput_length (summits : List Summit) (dist : ℚ) :
    (mergeOutput summits dist).length = (provFeatures summits dist).length := by
  rw [mergeOutput, List.length_map, List.enum_length, rankedPairs,
    List.length_insertionSort, List.enum_length]

theorem invIndex_getD_lt (fs : List MFeature) (hne : 0 < fs.length) (p : ℕ) :
    (invIndex fs).getD p 0 < fs.length := by
  by_cases hp : p < (invIndex fs).length
  · rw [List.getD_eq_getElem _ _ hp]
    have hmem : (invIndex fs)[p] ∈ invIndex fs := List.getElem_mem _
    simp only [invIndex] at hmem
    obtain ⟨pair, hpair, heq⟩ := List.mem_map.mp hmem
    rw [List.mem_insertionSort] at hpair
    have hlt := List.fst_lt_of_mem_enum hpair
    rw [ranks_length] at hlt
    simp only [invIndex]
    rw [← heq]
    exact hlt
  · rw [List.getD_eq_default _ _ (le_of_not_lt hp)]
    exact hne

/-- C4 (amended): every identifier token in a Merge or Cross field of
the merge output is the final identifier of a feature present in the
same output.  Self-links, however, are NOT dropped: a rewritten
ambiguous link that falls inside the record's own group yields the
feature's own identifier (see the counterexample). -/
theorem links_resolve (summits : List Summit) (dist : ℚ) :
    ∀ f ∈ mergeOutput summits dist, ∀ t : String,
      (t ∈ f.merge ∨ t ∈ f.cross) →
      ∃ f2 ∈ mergeOutput summits dist, f2.id = t := by
  intro f hf t ht
  have hne : 0 < (provFeatures summits dist).length := by
    by_contra hc
    have h0 : (provFeatures summits dist).length = 0 := by omega
    have : (mergeOutput summits dist).length = 0 := by
      rw [mergeOutput_length, h0]
    rw [List.length_eq_zero] at this
    rw [this] at hf
    exact absurd hf (List.not_mem_nil f)
  have htok : ∃ p : ℕ, t = fmtID ((invIndex (provFeatures summits dist)).getD p 0 + 1) := by
    rw [mergeOutput] at hf
    obtain ⟨ri, _, rfl⟩ := List.mem_map.mp hf
    rcases ht with h1 | h1
    · obtain ⟨p, _, hp2⟩ := List.mem_map.mp h1
      exact ⟨p, hp2.symm⟩
    · obtain ⟨p, _, hp2⟩ := List.mem_map.mp h1
      exact ⟨p, hp2.symm⟩
  obtain ⟨p, rfl⟩ := htok
  set q := (invIndex (provFeatures summits dist)).getD p 0 with hq
  have hqlt : q < (mergeOutput summits dist).length := by
    rw [mergeOutput_length]
    exact invIndex_getD_lt _ hne p
  refine ⟨(mergeOutput summits dist).getD q default, ?_, ?_⟩
  · rw [List.getD_eq_getElem _ _ hqlt]
    exact List.getElem_mem _
  · exact (mergeOutput_at summits dist q hqlt).2

/-- C4 witness: in the three-record batch the only output feature
carries the Merge token S0001, and that token resolves to a feature of
the output. -/
theorem links_resolve_witness :
    ((mergeOutput exThree 10).getD 0 default ∈ mergeOutput exThree 10 ∧
     "S0001" ∈ ((mergeOutput exThree 10).getD 0 default).merge) ∧
    (∃ f2 ∈ mergeOutput exThree 10, f2.id = "S0001") :=
  ⟨⟨by decide, by decide⟩,
   links_resolve exThree 10 ((mergeOutput exThree 10).getD 0 default)
     (by decide) "S0001" (Or.inl (by decide))⟩

/-- C4 counterexample: records 0 and 2 of the three-record batch are
linked anchor-only yet belong to the same group; the rewritten Merge
link of the single output feature is the feature's own identifier —
the self-link is not dropped. -/
theorem links_self_counterexample :
    (mergeOutput exThree 10).map (fun f => (f.id, f.merge)) =
      [("S0001", ["S0001"])] := by
  decide

/-!  Reconciler lemmas. -/

theorem promUpdate_name (f : TFeature) : (promUpdate f).name = f.name := by
  rw [promUpdate]
  split <;> rfl

theorem promUpdate_reference (f : TFeature) :
    (promUpdate f).reference = f.reference := by
  rw [promUpdate]
  split <;> rfl

theorem promUpdate_elevation (f : TFeature) :
    (promUpdate f).elevation = f.elevation := by
  rw [promUpdate]
  split <;> rfl

theorem promUpdate_colElevation (f : TFeature) :
    (promUpdate f).colElevation = f.colElevation := by
  rw [promUpdate]
  split <;> rfl

theorem promUpdate_notes (f : TFeature) : (promUpdate f).notes = f.notes := by
  rw [promUpdate]
  split <;> rfl

theorem keyStep_of_lookup {refs : List TRef} {f0 : TFeature} {rf : TRef}
    (hrf : lookupRef refs f0.id = some rf) :
    keyStep refs f0 = promUpdate (keyApply rf f0).1 := by
  rw [keyStep, hrf]

theorem elePair_fst (rf : TRef) (f0 : TFeature) (ns : List String) :
    (elePair rf f0 ns).1 =
      (if !truthyI f0.elevation then
        if truthyS rf.checkEle then
          if isDecimal (rf.checkEle.getD "") then
            some (decVal (rf.checkEle.getD ""))
          else f0.elevation
        else f0.elevation
      else f0.elevation) := by
  rw [elePair]
  split_ifs <;> simp_all

theorem elePair_snd (rf : TRef) (f0 : TFeature) (ns : List String) :
    (elePair rf f0 ns).2 =
      (if !truthyI f0.elevation then
        if truthyS rf.checkEle then
          if isDecimal (rf.checkEle.getD "") then ns
          else ns ++ ["ele:" ++ rf.checkEle.getD ""]
        else ns
      else ns) := by
  rw [elePair]
  split_ifs <;> simp_all

theorem colPair_fst (rf : TRef) (f0 : TFeature) (ns : List String) :
    (colPair rf f0 ns).1 =
      (if !truthyI f0.colElevation then
        if truthyS rf.checkCol then
          if isDecimal (rf.checkCol.getD "") then
            some (decVal (rf.checkCol.getD ""))
          else f0.colElevation
        else f0.colElevation
      else f0.colElevation) := by
  rw [colPair]
  split_ifs <;> simp_all

theorem colPair_snd (rf : TRef) (f0 : TFeature) (ns : List String) :
    (colPair rf f0 ns).2 =
      (if !truthyI f0.colElevation then
        if truthyS rf.checkCol then
          if isDecimal (rf.checkCol.getD "") then ns
          else ns ++ ["col:" ++ rf.checkCol.getD ""]
        else ns
      else ns) := by
  rw [colPair]
  split_ifs <;> simp_all

theorem keyApply_name (rf : TRef) (f0 : TFeature) :
    (keyApply rf f0).1.name =
      (if !truthyS f0.name then rf.name else f0.name) := by
  simp only [keyApply]
  split_ifs <;> rfl

theorem keyApply_reference (rf : TRef) (f0 : TFeature) :
    (keyApply rf f0).1.reference =
      (if hasSubstr "move" rf.action then f0.reference else rf.ref) := by
  simp only [keyApply]
  split_ifs <;> rfl

theorem keyApply_elevation (rf : TRef) (f0 : TFeature) :
    (keyApply rf f0).1.elevation = (elePair rf f0 (keyNotes0 rf)).1 := by
  simp only [keyApply]
  split_ifs <;> rfl

theorem keyApply_colElevation (rf : TRef) (f0 : TFeature) :
    (keyApply rf f0).1.colElevation =
      (colPair rf f0 (elePair rf f0 (keyNotes0 rf)).2).1 := by
  simp only [keyApply]
  split_ifs <;> rfl

theorem keyApply_notesList (rf : TRef) (f0 : TFeature) :
    (keyApply rf f0).2 =
      (colPair rf f0 (elePair rf f0 (keyNotes0 rf)).2).2 := rfl

theorem keyApply_notesField (rf : TRef) (f0 : TFeature) :
    (keyApply rf f0).1.notes =
      (if (keyApply rf f0).2 ≠ [] then
        some (String.intercalate "; " (keyApply rf f0).2)
      else f0.notes) := by
  simp only [keyApply]
  split_ifs with h1 <;> simp_all

/-- C7 (amended): key-mode reconciliation fills only absent attributes,
where "absent" is Python falsiness — NULL, the empty string, or the
integer zero: a non-empty Name and a non-zero Elevation /
Col elevation are never overwritten (but a present zero elevation is
treated as absent and may be filled, see the counterexample); when the
attribute is absent, a numeric-looking override string from the
matched reference entry is parsed and applied, and a non-numeric
override string is instead appended to the notes list that is joined
into the Notes field. -/
theorem key_reconcile_fill_only (refs : List TRef) (f : TFeature)
    (rf : TRef) (hrf : lookupRef refs f.id = some rf) :
    (∀ s : String, f.name = some s → s ≠ "" →
      (keyStep refs f).name = f.name) ∧
    (∀ v : ℤ, f.elevation = some v → v ≠ 0 →
      (keyStep refs f).elevation = f.elevation) ∧
    (∀ v : ℤ, f.colElevation = some v → v ≠ 0 →
      (keyStep refs f).colElevation = f.colElevation) ∧
    (truthyI f.elevation = false → truthyS rf.checkEle = true →
      isDecimal (rf.checkEle.getD "") = true →
      (keyStep refs f).elevation = some (decVal (rf.checkEle.getD ""))) ∧
    (truthyI f.colElevation = false → truthyS rf.checkCol = true →
      isDecimal (rf.checkCol.getD "") = true →
      (keyStep refs f).colElevation = some (decVal (rf.checkCol.getD ""))) ∧
    (truthyI f.elevation = false → truthyS rf.checkEle = true →
      isDecimal (rf.checkEle.getD "") = false →
      (keyStep refs f).elevation = f.elevation ∧
      ("ele:" ++ rf.checkEle.getD "") ∈ (keyApply rf f).2 ∧
      (keyStep refs f).notes =
        some (String.intercalate "; " (keyApply rf f).2)) ∧
    (truthyI f.colElevation = false → truthyS rf.checkCol = true →
      isDecimal (rf.checkCol.getD "") = false →
      (keyStep refs f).colElevation = f.colElevation ∧
      ("col:" ++ rf.checkCol.getD "") ∈ (keyApply rf f).2 ∧
      (keyStep refs f).notes =
        some (String.intercalate "; " (keyApply rf f).2)) := by
  have hstep := keyStep_of_lookup hrf
  refine ⟨?_, ?_, ?_, ?_, ?_, ?_, ?_⟩
  · intro s hs hne
    rw [hstep, promUpdate_name, keyApply_name]
    have : truthyS f.name = true := by simp [truthyS, hs, hne]
    simp [this]
  · intro v hv hne
    rw [hstep, promUpdate_elevation, keyApply_elevation, elePair_fst]
    have : truthyI f.elevation = true := by simp [truthyI, hv, hne]
    simp [this]
  · intro v hv hne
    rw [hstep, promUpdate_colElevation, keyApply_colElevation, colPair_fst]
    have : truthyI f.colElevation = true := by simp [truthyI, hv, hne]
    simp [this]
  · intro h1 h2 h3
    rw [hstep, promUpdate_elevation, keyApply_elevation, elePair_fst]
    simp [h1, h2, h3]
  · intro h1 h2 h3
    rw [hstep, promUpdate_colElevation, keyApply_colElevation, colPair_fst]
    simp [h1, h2, h3]
  · intro h1 h2 h3
    have hmem : ("ele:" ++ rf.checkEle.getD "") ∈ (keyApply rf f).2 := by
      rw [keyApply_notesList, colPair_snd, elePair_snd]
      simp only [h1, h2, h3]
      split_ifs <;> simp_all
    refine ⟨?_, hmem, ?_⟩
    · rw [hstep, promUpdate_elevation, keyApply_elevation, elePair_fst]
      simp [h1, h2, h3]
    · rw [hstep, promUpdate_notes, keyApply_notesField]
      have hne : (keyApply rf f).2 ≠ [] := by
        intro hc
        rw [hc] at hmem
        exact absurd hmem (List.not_mem_nil _)
      simp [hne]
  · intro h1 h2 h3
    have hmem : ("col:" ++ rf.checkCol.getD "") ∈ (keyApply rf f).2 := by
      rw [keyApply_notesList, colPair_snd, elePair_snd]
      simp only [h1, h2, h3]
      split_ifs <;> simp_all
    refine ⟨?_, hmem, ?_⟩
    · rw [hstep, promUpdate_colElevation, keyApply_colElevation, colPair_fst]
      simp [h1, h2, h3]
    · rw [hstep, promUpdate_notes, keyApply_notesField]
      have hne : (keyApply rf f).2 ≠ [] := by
        intro hc
        rw [hc] at hmem
        exact absurd hmem (List.not_mem_nil _)
      simp [hne]

/-- C7 witness: the amended theorem applied to the concrete reference
and feature. -/
theorem key_reconcile_fill_only_witness :
    lookupRef [exC7Ref] exC7Feat.id = some exC7Ref ∧
    ((∀ s : String, exC7Feat.name = some s → s ≠ "" →
      (keyStep [exC7Ref] exC7Feat).name = exC7Feat.name) ∧
    (∀ v : ℤ, exC7Feat.elevation = some v → v ≠ 0 →
      (keyStep [exC7Ref] exC7Feat).elevation = exC7Feat.elevation) ∧
    (∀ v : ℤ, exC7Feat.colElevation = some v → v ≠ 0 →
      (keyStep [exC7Ref] exC7Feat).colElevation = exC7Feat.colElevation) ∧
    (truthyI exC7Feat.elevation = false → truthyS exC7Ref.checkEle = true →
      isDecimal (exC7Ref.checkEle.getD "") = true →
      (keyStep [exC7Ref] exC7Feat).elevation =
        some (decVal (exC7Ref.checkEle.getD ""))) ∧
    (truthyI exC7Feat.colElevation = false → truthyS exC7Ref.checkCol = true →
      isDecimal (exC7Ref.checkCol.getD "") = true →
      (keyStep [exC7Ref] exC7Feat).colElevation =
        some (decVal (exC7Ref.checkCol.getD ""))) ∧
    (truthyI exC7Feat.elevation = false → truthyS exC7Ref.checkEle = true →
      isDecimal (exC7Ref.checkEle.getD "") = false →
      (keyStep [exC7Ref] exC7Feat).elevation = exC7Feat.elevation ∧
      ("ele:" ++ exC7Ref.checkEle.getD "") ∈ (keyApply exC7Ref exC7Feat).2 ∧
      (keyStep [exC7Ref] exC7Feat).notes =
        some (String.intercalate "; " (keyApply exC7Ref exC7Feat).2)) ∧
    (truthyI exC7Feat.colElevation = false → truthyS exC7Ref.checkCol = true →
      isDecimal (exC7Ref.checkCol.getD "") = false →
      (keyStep [exC7Ref] exC7Feat).colElevation = exC7Feat.colElevation ∧
      ("col:" ++ exC7Ref.checkCol.getD "") ∈ (keyApply exC7Ref exC7Feat).2 ∧
      (keyStep [exC7Ref] exC7Feat).notes =
        some (String.intercalate "; " (keyApply exC7Ref exC7Feat).2))) :=
  ⟨by decide, key_reconcile_fill_only [exC7Ref] exC7Feat exC7Ref (by decide)⟩

/-- C7 counterexample: the feature carries a PRESENT Col elevation
value 0; key-mode reconciliation overwrites it with the parsed
override 5 — an already-present attribute value is overwritten. -/
theorem key_overwrite_counterexample :
    exC7Feat.colElevation = some 0 ∧
    (keyStep [exC7Ref] exC7Feat).colElevation = some 5 ∧
    (keyStep [exC7Ref] exC7Feat).colElevation ≠ exC7Feat.colElevation := by
  refine ⟨rfl, by decide, by decide⟩

/-- C8 (amended): reference-id propagation is suppressed by the action
marker "move" in key mode and by the marker "switch" in spatial mode:
a key-mode match whose action contains "move" leaves the record's
Reference field unchanged; a spatial-mode match whose action contains
"switch" leaves it unchanged and does not consume the reference entry.
The opposite marker/mode pairing does NOT suppress propagation (see
the counterexample). -/
theorem suppress_reference :
    (∀ (refs : List TRef) (f : TFeature) (rf : TRef),
      lookupRef refs f.id = some rf → hasSubstr "move" rf.action = true →
      (keyStep refs f).reference = f.reference) ∧
    (∀ (refs : List TRef) (st : SpState) (f : TFeature) (i : ℕ)
        (rest : List ℕ),
      nearestNeighbor (refSummitEntries refs) f.spt 1 tolSummit = i :: rest →
      i ∈ nearestNeighbor (refColEntries refs) f.cpt 1 tolCol →
      hasSubstr "switch" ((spatialRefs refs).getD i default).1.action = true →
      ∃ st2, spatialStep refs st f = Except.ok st2 ∧
        st2.matched = st.matched ∧
        ∃ f2, st2.out = st.out ++ [f2] ∧ f2.reference = f.reference) := by
  constructor
  · intro refs f rf hrf hmv
    rw [keyStep_of_lookup hrf, promUpdate_reference, keyApply_reference,
      if_pos hmv]
  · intro refs st f i rest hq hj hsw
    rw [spatialStep, hq]
    simp only [hj, if_true, hsw]
    refine ⟨_, rfl, rfl, _, rfl, ?_⟩
    set rf := ((spatialRefs refs).getD i default).1 with hrf
    set f1 := promUpdate
      { f with
        reference := f.reference
        name := if !truthyS f.name then rf.name else f.name
        elevation := (elePair rf f (spatialNotes0 rf)).1
        colElevation := (colPair rf f (elePair rf f (spatialNotes0 rf)).2).1 }
      with hf1
    have h1 : f1.reference = f.reference := by
      rw [hf1, promUpdate_reference]
    split_ifs <;> simp [h1]

/-- C8 witness: the amended theorem applied to the concrete entry
(whose action carries both markers) in both modes. -/
theorem suppress_reference_witness :
    (lookupRef [exC8Both] exC8Feat.id = some exC8Both ∧
     hasSubstr "move" exC8Both.action = true ∧
     (keyStep [exC8Both] exC8Feat).reference = exC8Feat.reference) ∧
    (nearestNeighbor (refSummitEntries [exC8Both]) exC8Feat.spt 1 tolSummit =
        [0] ∧
     (0 : ℕ) ∈ nearestNeighbor (refColEntries [exC8Both]) exC8Feat.cpt 1
        tolCol ∧
     hasSubstr "switch" ((spatialRefs [exC8Both]).getD 0 default).1.action =
        true ∧
     ∃ st2, spatialStep [exC8Both] ⟨none, [], [], []⟩ exC8Feat =
        Except.ok st2 ∧
       st2.matched = (⟨none, [], [], []⟩ : SpState).matched ∧
       ∃ f2, st2.out = (⟨none, [], [], []⟩ : SpState).out ++ [f2] ∧
         f2.reference = exC8Feat.reference) :=
  ⟨⟨by decide, by decide,
    suppress_reference.1 [exC8Both] exC8Feat exC8Both (by decide) (by decide)⟩,
   ⟨by decide, by decide, by decide,
    suppress_reference.2 [exC8Both] ⟨none, [], [], []⟩ exC8Feat 0 []
      (by decide) (by decide) (by decide)⟩⟩

/-- C8 counterexample: in key mode a matched entry whose action marker
is "switch" does NOT suppress propagation — the record's Reference is
set to the reference's own cross-reference id R9, contradicting the
claim that "switch" suppresses propagation in both modes. -/
theorem suppress_reference_counterexample :
    exC8Switch.action = "switch" ∧ exC8Feat.reference = none ∧
    (keyStep [exC8Switch] exC8Feat).reference = some "R9" := by
  refine ⟨rfl, rfl, by decide⟩

/-- C9: on the anchor-matches-but-secondary-does-not path the
spatial-mode loop reads the `notes` local without assigning it.  When
the first processed record takes that path the run fails with an
unbound-local error instead of skipping the record; when an earlier
record fully matched with a noted (non-"ok") action, the notes it left
behind are attached to the later anchor-only record, overwriting that
record's own Notes. -/
theorem spatial_notes_unbound :
    topoMatchSpatial [exC9Ref] [exC9AnchorOnly] =
      Except.error "UnboundLocalError: notes" ∧
    (topoMatchSpatial [exC9RefCheck] [exC9Full, exC9AnchorOnly]).map
        (fun st => st.out.map (fun f2 => f2.notes)) =
      Except.ok [some "check", some "check"] := by
  constructor
  · decide
  · decide

/-!  Key-mode output ordering. -/

instance : IsTotal TFeature keyLE := ⟨by
  intro a b
  rw [keyLE, keyLE]
  cases ha : truthyS a.reference <;> cases hb : truthyS b.reference <;>
    simp only [keyLEb, ha, hb, decide_eq_true_eq]
  · exact le_total _ _
  · simp
  · simp
  · rw [pyStrLE_iff, pyStrLE_iff]
    exact le_total _ _⟩

instance : IsTrans TFeature keyLE := ⟨by
  intro a b c hab hbc
  rw [keyLE] at hab hbc ⊢
  cases ha : truthyS a.reference <;> cases hb : truthyS b.reference <;>
      cases hc : truthyS c.reference <;>
    simp only [keyLEb, ha, hb, hc, decide_eq_true_eq] at hab hbc ⊢
  all_goals try simp only [Bool.false_eq_true] at hab
  all_goals try simp only [Bool.false_eq_true] at hbc
  · exact le_trans hbc hab
  · rw [pyStrLE_iff] at hab hbc ⊢
    exact le_trans hab hbc⟩

/-- C10: the key-mode reconciler emits all records that end with a
truthy (non-empty) Reference first, ordered by the Reference value
ascending, followed by the records without a Reference ordered by
descending Prominence, and reassigns every `fid` to the zero-based
output position.  (A record compared on a NULL Prominence would raise
a TypeError in Python; the hypothesis assumes the records without a
Reference carry one.) -/
theorem key_output_order (refs : List TRef) (src : List TFeature)
    (hprom : ∀ f2 ∈ src.map (keyStep refs),
      truthyS f2.reference = false → f2.prominence.isSome = true) :
    (topoMatchM refs src).Pairwise
      (fun a b => truthyS b.reference = true → truthyS a.reference = true) ∧
    (topoMatchM refs src).Pairwise
      (fun a b => truthyS a.reference = true → truthyS b.reference = true →
        a.reference.getD "" ≤ b.reference.getD "") ∧
    (topoMatchM refs src).Pairwise
      (fun a b => truthyS a.reference = false → truthyS b.reference = false →
        b.prominence.getD 0 ≤ a.prominence.getD 0) ∧
    (∀ r, r < (topoMatchM refs src).length →
      ((topoMatchM refs src).getD r default).fid = (r : ℤ)) := by
  have hsorted : ((src.map (keyStep refs)).insertionSort keyLE).Pairwise keyLE :=
    List.sorted_insertionSort keyLE _
  have hrs : (topoMatchM refs src).Pairwise
      (fun a b => keyLEb a b = true) := by
    rw [topoMatchM]
    rw [List.pairwise_map]
    exact (pairwise_enumFrom_of_pairwise _ 0 hsorted).imp (fun h => h)
  refine ⟨?_, ?_, ?_, ?_⟩
  · refine hrs.imp ?_
    intro a b h htb
    cases ha : truthyS a.reference
    · cases hb : truthyS b.reference
      · exact absurd hb (by rw [htb]; simp)
      · rw [keyLEb, ha, hb] at h
        exact absurd h (by simp)
    · rfl
  · refine hrs.imp ?_
    intro a b h hta htb
    rw [keyLEb, hta, htb] at h
    exact (pyStrLE_iff _ _).mp h
  · refine hrs.imp ?_
    intro a b h hta htb
    rw [keyLEb, hta, htb] at h
    exact of_decide_eq_true h
  · intro r hr
    rw [topoMatchM] at hr ⊢
    rw [List.getD_eq_getElem _ _ hr]
    rw [List.getElem_map]
    rw [List.getElem_enum]

/-- C10 witness: the ordering theorem applied to the concrete batch
(no reference entries, three source records). -/
theorem key_output_order_witness :
    (∀ f2 ∈ exC10.map (keyStep []),
      truthyS f2.reference = false → f2.prominence.isSome = true) ∧
    ((topoMatchM [] exC10).Pairwise
      (fun a b => truthyS b.reference = true → truthyS a.reference = true) ∧
    (topoMatchM [] exC10).Pairwise
      (fun a b => truthyS a.reference = true → truthyS b.reference = true →
        a.reference.getD "" ≤ b.reference.getD "") ∧
    (topoMatchM [] exC10).Pairwise
      (fun a b => truthyS a.reference = false → truthyS b.reference = false →
        b.prominence.getD 0 ≤ a.prominence.getD 0) ∧
    (∀ r, r < (topoMatchM [] exC10).length →
      ((topoMatchM [] exC10).getD r default).fid = (r : ℤ))) :=
  ⟨by decide, key_output_order [] exC10 (by decide)⟩

end YoDem
